import Mathlib

/-! The compiler-invocation interposer `hfuzz-cc` of honggfuzz.

A shallow embedding of `hfuzz_cc/hfuzz-cc.c` and the properties of its
specification.

Conventions of the embedding.

* A C string is a `String`; `strcmp(a, b) == 0` is `a = b`.
* `argv` is the list of its tokens up to the terminating `NULL`. `main` takes
  `argv[0]` and `argv[1..argc-1]` as two arguments, so `argc = 1 + rest.length`
  and `argv[0]` is never `NULL`.
* An argument array is the list of the tokens stored so far together with its
  number of slots: `a[j++] = x` appends `x` with the cursor `j` at the length of
  the list, and a store at a slot the array does not have is undefined
  behaviour, after which the model says nothing (`Slots`, `store`). The array
  `args` of `ccMode` and `ldMode` has `ARGS_MAX` slots; the `argv` of `main` has
  the `argc + 1` slots `argv[0] .. argv[argc]`.
* `getenv` is a function from variable names to optional values.
* `execvp` is an oracle telling which commands can be started. A started command
  replaces the process image, so `execvp` returns only when it failed.
* The filesystem is a function from paths to optional file contents; the system
  calls whose outcome the filesystem does not determine take it from `Sys`.
* Concurrent invocations of `getLibHfuzz` are processes on one filesystem, each
  standing between two system calls (`Pc`); a system call is one atomic step
  (`stepProc`) and an interleaving is a list of process numbers (`Conc.run`).
-/

namespace HfuzzCC

/-! ## Constants -/

/-- The macro `ARGS_MAX` (`#define ARGS_MAX 4096`), also the capacity of `args` in
`ccMode` and `ldMode`. -/
def ARGS_MAX : Nat := 4096

/-- The macro `LHFUZZ_A_PATH` (`#define LHFUZZ_A_PATH "/tmp/libhfuzz.a"`). -/
def LHFUZZ_A_PATH : String := "/tmp/libhfuzz.a"

/-- The value of `EXIT_FAILURE` of `<stdlib.h>`. -/
def EXIT_FAILURE : Nat := 1

/-! ## Environment toggles -/

/-- The process environment as seen through `getenv`: `none` is `NULL`. -/
abbrev Environ := String → Option String

/-- Function `useASAN`: `getenv("HFUZZ_CC_ASAN") != NULL`. -/
def useASAN (getenv : Environ) : Bool :=
  if (getenv "HFUZZ_CC_ASAN").isSome then true else false

/-- Function `useMSAN`: `getenv("HFUZZ_CC_MSAN") != NULL`. -/
def useMSAN (getenv : Environ) : Bool :=
  if (getenv "HFUZZ_CC_MSAN").isSome then true else false

/-- Function `useUBSAN`: `getenv("HFUZZ_CC_UBSAN") != NULL`. -/
def useUBSAN (getenv : Environ) : Bool :=
  if (getenv "HFUZZ_CC_UBSAN").isSome then true else false

/-! ## Mode classification -/

/-- The body of the loop of `isLDMode` over the tokens `argv[i], argv[i+1], ...`
that are left: the four `strcmp` tests in source order, then the next token. -/
def isLDModeLoop : List String → Bool
  | [] => true
  | a :: rest =>
    if a = "-v" then false
    else if a = "-c" then false
    else if a = "-E" then false
    else if a = "-S" then false
    else isLDModeLoop rest

/-- Function `isLDMode(argc, argv)`: the loop runs over `i = 1 .. argc - 1`. -/
def isLDMode (argc : Nat) (argv : List String) : Bool :=
  isLDModeLoop ((argv.take argc).drop 1)

/-! ## Toolchain identity -/

/-- The libc function `strstr(haystack, needle)` of `<string.h>`: the offset of the first
occurrence of `needle` in `haystack`, `none` for `NULL`. -/
def strstr : List Char → List Char → Option Nat
  | [], needle => if needle.isPrefixOf [] then some 0 else none
  | c :: cs, needle =>
    if needle.isPrefixOf (c :: cs) then some 0
    else (strstr cs needle).map (· + 1)

/-- The two globals `isCXX` and `isGCC`. -/
structure Identity where
  isCXX : Bool
  isGCC : Bool
  deriving DecidableEq, Repr

/-- Lines 246-254 of `main`: both globals start `false` and are only ever set
to `true`. -/
def identify (argv0 : String) : Identity :=
  let isCXX := false
  let isGCC := false
  let isCXX := if (strstr argv0.toList "++".toList).isSome then true else isCXX
  let isGCC := if (strstr argv0.toList "gcc".toList).isSome then true else isGCC
  let isGCC := if (strstr argv0.toList "g++".toList).isSome then true else isGCC
  { isCXX := isCXX, isGCC := isGCC }

/-! ## The filesystem and the archive materializer -/

/-- File contents are bytes. -/
abbrev Bytes := List Nat

/-- The filesystem: the content of the file at each path, `none` when there is
no such file. -/
abbrev FS := String → Option Bytes

/-- The file at `path` is created or replaced with content `b`. -/
def FS.write (fs : FS) (path : String) (b : Bytes) : FS :=
  fun q => if q = path then some b else fs q

/-- The system call `unlink(path)`. -/
def FS.unlink (fs : FS) (path : String) : FS :=
  fun q => if q = path then none else fs q

/-- The system call `rename(old, new)` when it succeeds: atomically, `new` gets the content of
`old` and `old` is gone. -/
def FS.rename (fs : FS) (old new : String) : FS :=
  fun q => if q = new then fs old else if q = old then none else fs q

/-- Outcomes of the system calls of `getLibHfuzz` that the filesystem content
does not determine. -/
structure Sys where
  /-- The characters `mkostemp` puts in place of `XXXXXX`; `none`: it fails. -/
  tmpSuffix : Option String
  /-- With `none` the write goes through; with `some k` it fails after `k` bytes. -/
  writeFail : Option Nat
  /-- Whether `rename` succeeds. -/
  renameOk : Bool

/-- The libc function `mkostemp(template, O_CLOEXEC)`: creates an empty file under a name that did
not exist and returns that name (the rewritten `template`); `none` is `-1`. -/
def mkostemp (sys : Sys) (fs : FS) : Option (String × FS) :=
  match sys.tmpSuffix with
  | none => none
  | some sfx =>
    let template := "/tmp/libhfuzz.a." ++ sfx
    if (fs template).isSome then none else some (template, fs.write template [])

/-- Modelled from the spec: `files_writeToFd` of `libcommon/files.c`, which is
not among the sources. It writes the full payload to the file and returns
`true`, or fails and returns `false` with only a part of the payload written. -/
def files_writeToFd (sys : Sys) (fs : FS) (file : String) (buf : Bytes) : Bool × FS :=
  match sys.writeFail with
  | none => (true, fs.write file buf)
  | some k => (false, fs.write file (buf.take k))

/-- Function `getLibHfuzz`, with `lhfuzz` the bytes between `lhfuzz_start` and
`lhfuzz_end`. Returns the result and the filesystem it leaves. -/
def getLibHfuzz (lhfuzz : Bytes) (sys : Sys) (fs : FS) : Bool × FS :=
  let len := lhfuzz.length
  let upToDate :=
    match fs LHFUZZ_A_PATH with
    | some st => decide (st.length = len)
    | none => false
  if upToDate then (true, fs)
  else
    match mkostemp sys fs with
    | none => (false, fs)
    | some (template, fs) =>
      match files_writeToFd sys fs template lhfuzz with
      | (false, fs) => (false, fs)
      | (true, fs) =>
        if sys.renameOk then (true, fs.rename template LHFUZZ_A_PATH)
        else (false, fs.unlink template)

/-! ## Argument arrays -/

/-- An argument array while it is filled: `some l` when the slots `0 .. l.length - 1`
hold the tokens `l` and every store so far was inside the array; `none` once a
store went past the last slot, from where the C program has no defined
behaviour. -/
abbrev Slots := Option (List String)

/-- The store `a[j++] = x` into an array of `cap` slots, with the cursor `j` at
the number of tokens stored so far. -/
def store (cap : Nat) (a : Slots) (x : String) : Slots :=
  match a with
  | none => none
  | some l => if l.length < cap then some (l ++ [x]) else none

/-- The store `a[j] = NULL` into an array of `cap` slots: it ends the vector at
the cursor and needs the slot `j` to exist. -/
def storeNull (cap : Nat) (a : Slots) : Slots :=
  match a with
  | none => none
  | some l => if l.length < cap then some l else none

/-! ## The dispatcher -/

/-- What the process runs in: environment, startable commands, filesystem,
system-call outcomes and the embedded archive. -/
structure World where
  getenv : Environ
  /-- Reading `execvp cmd argv = true`: `cmd` can be started with `argv`. -/
  execvp : String → List String → Bool
  fs : FS
  sys : Sys
  lhfuzz : Bytes

/-- Lines 77-86 of `execCC`, on an array `argv` of `cap` slots whose first `argc`
slots hold tokens: one store at the cursor per enabled sanitizer, then the store
of `NULL`. The result is the vector `execvp` will see; `none`: a store was out
of bounds. -/
def execCCArgs (cap : Nat) (getenv : Environ) (argc : Nat) (argv : List String) : Slots :=
  let a : Slots := some (argv.take argc)
  let a := if useASAN getenv then store cap a "-fsanitize=address" else a
  let a := if useMSAN getenv then store cap a "-fsanitize=memory" else a
  let a := if useUBSAN getenv then store cap a "-fsanitize=undefined" else a
  storeNull cap a

/-- The commands `execCC` passes to `execvp` when no override is set, in source
order. -/
def candidates (id : Identity) : List String :=
  if id.isGCC then
    if id.isCXX then ["g++-8", "g++-7", "g++-6", "g++-5", "g++", "gcc"]
    else ["gcc-8", "gcc-7", "gcc-6", "gcc-5", "gcc"]
  else
    if id.isCXX then
      ["clang++-devel", "clang++-6.0", "clang++-5.0", "clang++-4.0", "clang++", "clang"]
    else ["clang-devel", "clang-6.0", "clang-5.0", "clang-4.0", "clang"]

/-- Consecutive calls `execvp(c, argv)`: the commands called, and the one that
started (`none`: every call returned). -/
def execvpSeq (start : String → Bool) : List String → List String × Option String
  | [] => ([], none)
  | c :: cs =>
    if start c then ([c], some c)
    else ((c :: (execvpSeq start cs).1), (execvpSeq start cs).2)

/-- The result of `execCC` when its stores were in bounds. -/
structure Exec where
  /-- The vector every `execvp` call received. -/
  argv : List String
  /-- The commands passed to `execvp`, in call order. -/
  tried : List String
  /-- The command that replaced the process; `none`: `execCC` returned. -/
  image : Option String
  deriving DecidableEq, Repr

/-- The return value of `execCC`; `none` when the process was replaced. -/
def Exec.status (e : Exec) : Option Nat :=
  match e.image with
  | some _ => none
  | none => some EXIT_FAILURE

/-- Lines 88-128 of `execCC`, on the vector `argv` that lines 77-86 built: the
override if `HFUZZ_CC_PATH` is set, the candidates of the identity otherwise. -/
def dispatch (w : World) (id : Identity) (argv : List String) : Exec :=
  match w.getenv "HFUZZ_CC_PATH" with
  | some cc_path =>
    if w.execvp cc_path argv then { argv := argv, tried := [cc_path], image := some cc_path }
    else { argv := argv, tried := [cc_path], image := none }
  | none =>
    let r := execvpSeq (fun c => w.execvp c argv) (candidates id)
    { argv := argv, tried := r.1, image := r.2 }

/-- Function `execCC(argc, argv)` on an array `argv` of `cap` slots; `none`: one of
its stores was out of bounds, and nothing is known of what follows (on Linux
the slots behind `main`'s `argv` are the environment that `getenv` reads). -/
def execCC (w : World) (id : Identity) (cap argc : Nat) (argv : List String) : Option Exec :=
  match execCCArgs cap w.getenv argc argv with
  | none => none
  | some argv => some (dispatch w id argv)

/-! ## The argument rewriter -/

/-- The array `args` of `ccMode`, of `cap` slots (`char *args[4096]` in the
source), when it calls `execCC(j, args)`; `none`: a store was out of bounds. -/
def ccModeArgs (cap : Nat) (id : Identity) (argc : Nat) (argv : List String) : Slots :=
  let args : Slots := some []
  let args := if id.isCXX then store cap args "c++" else store cap args "cc"
  let args :=
    if id.isGCC then store cap args "-fsanitize-coverage=trace-pc"
    else
      let args := store cap args "-fsanitize-coverage=trace-pc-guard,trace-cmp,indirect-calls"
      let args := store cap args "-mllvm"
      let args := store cap args "-sanitizer-coverage-prune-blocks=0"
      let args := store cap args "-mllvm"
      let args := store cap args "-sanitizer-coverage-block-threshold=10000000"
      let args := store cap args "-mllvm"
      store cap args "-sanitizer-coverage-level=2"
  let args := store cap args "-funroll-loops"
  let args := store cap args "-fno-inline"
  let args := store cap args "-fno-builtin"
  ((argv.take argc).drop 1).foldl (store cap) args

/-- The array `args` of `ldMode`, of `cap` slots (`char *args[4096]` in the
source), when it calls `execCC(j, args)`; `none`: a store was out of bounds. -/
def ldModeArgs (cap : Nat) (id : Identity) (argc : Nat) (argv : List String) : Slots :=
  let args : Slots := some []
  let args := if id.isCXX then store cap args "c++" else store cap args "cc"
  let args := store cap args "-Wl,-z,muldefs"
  let args := store cap args "-Wl,--whole-archive"
  let args := store cap args LHFUZZ_A_PATH
  let args := store cap args "-Wl,--no-whole-archive"
  let args :=
    if id.isGCC then store cap args "-fsanitize-coverage=trace-pc"
    else
      let args := store cap args "-fsanitize-coverage=trace-pc-guard,trace-cmp,indirect-calls"
      let args := store cap args "-mllvm"
      let args := store cap args "-sanitizer-coverage-prune-blocks=0"
      let args := store cap args "-mllvm"
      let args := store cap args "-sanitizer-coverage-block-threshold=10000000"
      let args := store cap args "-mllvm"
      store cap args "-sanitizer-coverage-level=2"
  let args := store cap args "-funroll-loops"
  let args := store cap args "-fno-inline"
  let args := store cap args "-fno-builtin"
  let args := ((argv.take argc).drop 1).foldl (store cap) args
  store cap args LHFUZZ_A_PATH

/-- How far a run got towards `execvp`. -/
inductive Call where
  /-- The run returned before the rewriter and `execCC`. -/
  | skipped
  /-- A store of the rewriter or of `execCC` was out of bounds: the C program has
  no defined behaviour from there. -/
  | undefined
  /-- The stores were in bounds and `execCC` went through its `execvp` calls. -/
  | made (e : Exec)
  deriving DecidableEq, Repr

/-- One run of the tool. -/
structure Run where
  /-- The filesystem it leaves. -/
  fs : FS
  /-- The result of `getLibHfuzz`; `none`: it was not called. -/
  lib : Option Bool
  /-- How far the run got towards `execvp`. -/
  exec : Call

/-- The exit status of `main` when it returns; `none` when the process was
replaced or the behaviour is undefined. -/
def Run.status (r : Run) : Option Nat :=
  match r.exec with
  | .made e => e.status
  | .undefined => none
  | .skipped => some EXIT_FAILURE

/-- The vector handed to `execvp`, when the run got there. -/
def Run.vector (r : Run) : Option (List String) :=
  match r.exec with
  | .made e => some e.argv
  | .undefined => none
  | .skipped => none

/-- The rewriter's array handed to `execCC(j, args)`: the part of `ccMode` and
`ldMode` after `args` is filled. -/
def callExecCC (w : World) (id : Identity) (cap : Nat) (args : Slots) : Call :=
  match args with
  | none => .undefined
  | some l =>
    match execCC w id cap l.length l with
    | none => .undefined
    | some e => .made e

/-- Function `ccMode(argc, argv)`. -/
def ccMode (w : World) (id : Identity) (argc : Nat) (argv : List String) : Run :=
  let args := ccModeArgs ARGS_MAX id argc argv
  { fs := w.fs, lib := none, exec := callExecCC w id ARGS_MAX args }

/-- Function `ldMode(argc, argv)`. -/
def ldMode (w : World) (id : Identity) (argc : Nat) (argv : List String) : Run :=
  match getLibHfuzz w.lhfuzz w.sys w.fs with
  | (false, fs) => { fs := fs, lib := some false, exec := .skipped }
  | (true, fs) =>
    let args := ldModeArgs ARGS_MAX id argc argv
    { fs := fs, lib := some true, exec := callExecCC w id ARGS_MAX args }

/-- Function `main(argc, argv)` with `argv = argv0 :: rest` and `argc = 1 + rest.length`.
The array `argv` of `main` has the `argc + 1` slots `argv[0] .. argv[argc]`, the
last holding `NULL`; the zero-argument branch hands this array to `execCC`. -/
def main (w : World) (argv0 : String) (rest : List String) : Run :=
  let argv := argv0 :: rest
  let argc := argv.length
  let id := identify argv0
  if argc ≤ 1 then
    { fs := w.fs, lib := none, exec := callExecCC w id (argc + 1) (some argv) }
  else if argc > ARGS_MAX - 4 then
    { fs := w.fs, lib := none, exec := .skipped }
  else if isLDMode argc argv then ldMode w id argc argv
  else ccMode w id argc argv

/-! ## Vocabulary of the specification -/

/-- The sanitizer flags as the specification words them: of the three flags, in
the fixed order address, memory, undefined, those whose toggle is enabled. -/
def enabledSanitizers (getenv : Environ) : List String :=
  ([("-fsanitize=address", useASAN getenv), ("-fsanitize=memory", useMSAN getenv),
    ("-fsanitize=undefined", useUBSAN getenv)].filter (fun f => f.2)).map (fun f => f.1)

/-- Every token the tool can inject: the string literals stored into an argument
vector anywhere in the source. -/
def injectedTokens : List String :=
  ["c++", "cc", "-Wl,-z,muldefs", "-Wl,--whole-archive", LHFUZZ_A_PATH,
   "-Wl,--no-whole-archive", "-fsanitize-coverage=trace-pc",
   "-fsanitize-coverage=trace-pc-guard,trace-cmp,indirect-calls", "-mllvm",
   "-sanitizer-coverage-prune-blocks=0", "-sanitizer-coverage-block-threshold=10000000",
   "-sanitizer-coverage-level=2", "-funroll-loops", "-fno-inline", "-fno-builtin",
   "-fsanitize=address", "-fsanitize=memory", "-fsanitize=undefined"]

/-- The tokens `ccMode` stores into `args`, in the order of its stores: the
front-end name, the coverage flags of the family, the three optimization flags,
the user tokens. -/
def ccModeStores (id : Identity) (U : List String) : List String :=
  [if id.isCXX = true then "c++" else "cc"]
    ++ (if id.isGCC = true then ["-fsanitize-coverage=trace-pc"]
        else ["-fsanitize-coverage=trace-pc-guard,trace-cmp,indirect-calls",
          "-mllvm", "-sanitizer-coverage-prune-blocks=0",
          "-mllvm", "-sanitizer-coverage-block-threshold=10000000",
          "-mllvm", "-sanitizer-coverage-level=2"])
    ++ ["-funroll-loops", "-fno-inline", "-fno-builtin"] ++ U

/-- The tokens `ldMode` stores into `args`, in the order of its stores. -/
def ldModeStores (id : Identity) (U : List String) : List String :=
  [if id.isCXX = true then "c++" else "cc", "-Wl,-z,muldefs", "-Wl,--whole-archive",
      LHFUZZ_A_PATH, "-Wl,--no-whole-archive"]
    ++ (if id.isGCC = true then ["-fsanitize-coverage=trace-pc"]
        else ["-fsanitize-coverage=trace-pc-guard,trace-cmp,indirect-calls",
          "-mllvm", "-sanitizer-coverage-prune-blocks=0",
          "-mllvm", "-sanitizer-coverage-block-threshold=10000000",
          "-mllvm", "-sanitizer-coverage-level=2"])
    ++ ["-funroll-loops", "-fno-inline", "-fno-builtin"] ++ U ++ [LHFUZZ_A_PATH]

/-- An environment where `HFUZZ_CC_ASAN` is `1`, `HFUZZ_CC_PATH` is `cc_path` and
no other variable is set. -/
def overrideEnviron (cc_path : String) : Environ :=
  fun v => if v = "HFUZZ_CC_ASAN" then some "1"
    else if v = "HFUZZ_CC_PATH" then some cc_path else none

/-- An environment with none of the variables set. -/
def emptyEnviron : Environ := fun _ => none

/-- An environment where the variable `name` has the value `value` and no other
variable is set. -/
def singleEnviron (name value : String) : Environ :=
  fun v => if v = name then some value else none

/-- A world for concrete runs: the archive is already in place, only `clang` can
be started, every system call succeeds. -/
def sampleWorld (getenv : Environ) : World :=
  { getenv := getenv
    execvp := fun c _ => decide (c = "clang")
    fs := fun q => if q = LHFUZZ_A_PATH then some [127, 69, 76] else none
    sys := { tmpSuffix := some "a1B2c3", writeFail := none, renameOk := true }
    lhfuzz := [127, 69, 76] }

/-- A filesystem with no file at all. -/
def emptyFS : FS := fun _ => none

/-- A world for concrete runs where the archive is not in place yet: system
calls behave as `sys` says, only `clang` can be started. -/
def freshWorld (sys : Sys) : World :=
  { getenv := emptyEnviron
    execvp := fun c _ => decide (c = "clang")
    fs := emptyFS
    sys := sys
    lhfuzz := [127, 69, 76] }

/-- The calls `getLibHfuzz` makes, in order: the control flow of `getLibHfuzz`
with each branch replaced by the names of the calls on the way to it. -/
def getLibHfuzzCalls (lhfuzz : Bytes) (sys : Sys) (fs : FS) : List String :=
  let len := lhfuzz.length
  let upToDate :=
    match fs LHFUZZ_A_PATH with
    | some st => decide (st.length = len)
    | none => false
  if upToDate then ["stat"]
  else
    match mkostemp sys fs with
    | none => ["stat", "mkostemp"]
    | some (template, fs) =>
      match files_writeToFd sys fs template lhfuzz with
      | (false, _) => ["stat", "mkostemp", "files_writeToFd", "close"]
      | (true, _) =>
        if sys.renameOk then ["stat", "mkostemp", "files_writeToFd", "close", "rename"]
        else ["stat", "mkostemp", "files_writeToFd", "close", "rename", "unlink"]

/-- The name of the temporary file that `mkostemp` makes of the template
`/tmp/libhfuzz.a.XXXXXX` with the characters `sfx`. -/
def tempName (sfx : String) : String := "/tmp/libhfuzz.a." ++ sfx

/-! ## Concurrent invocations of the materializer -/

/-- Where one invocation of `getLibHfuzz` stands: the call it makes next. -/
inductive Pc where
  /-- Before `stat`. -/
  | atStat
  /-- The target is absent or of another size; before `mkostemp`. -/
  | atMkostemp
  /-- The temporary file `template` is open with `k` bytes written. -/
  | atWrite (template : String) (k : Nat)
  /-- The temporary file is written and closed; before `rename`. -/
  | atRename (template : String)
  /-- Returned `ret`. -/
  | done (ret : Bool)
  deriving DecidableEq, Repr

/-- One system call of an invocation of `getLibHfuzz`, atomic on the filesystem:
`stat`, `mkostemp`, the writes of `files_writeToFd` taken one byte at a time
(the finest way the payload can reach the file), `close`, `rename` (or `unlink`
when `rename` fails). Returns the next position and the filesystem. -/
def stepProc (lhfuzz : Bytes) (sys : Sys) (pc : Pc) (fs : FS) : Pc × FS :=
  match pc with
  | .atStat =>
    let upToDate :=
      match fs LHFUZZ_A_PATH with
      | some st => decide (st.length = lhfuzz.length)
      | none => false
    if upToDate then (.done true, fs) else (.atMkostemp, fs)
  | .atMkostemp =>
    match mkostemp sys fs with
    | none => (.done false, fs)
    | some (template, fs) => (.atWrite template 0, fs)
  | .atWrite template k =>
    if k < lhfuzz.length then
      if sys.writeFail = some k then (.done false, fs)
      else (.atWrite template (k + 1), fs.write template (lhfuzz.take (k + 1)))
    else (.atRename template, fs)
  | .atRename template =>
    if sys.renameOk then (.done true, fs.rename template LHFUZZ_A_PATH)
    else (.done false, fs.unlink template)
  | .done ret => (.done ret, fs)

/-- Processes running `getLibHfuzz` on one filesystem: process `i` stands at
`pc i`. -/
structure Conc where
  fs : FS
  pc : Nat → Pc

/-- Every process is about to start. -/
def Conc.init (fs : FS) : Conc := { fs := fs, pc := fun _ => .atStat }

/-- Process `i` makes its next system call, with the outcomes `sysOf i`. -/
def Conc.step (lhfuzz : Bytes) (sysOf : Nat → Sys) (c : Conc) (i : Nat) : Conc :=
  { fs := (stepProc lhfuzz (sysOf i) (c.pc i) c.fs).2
    pc := fun j => if j = i then (stepProc lhfuzz (sysOf i) (c.pc i) c.fs).1 else c.pc j }

/-- An interleaving: the processes make their system calls in the order `sched`
names them. -/
def Conc.run (lhfuzz : Bytes) (sysOf : Nat → Sys) (c : Conc) (sched : List Nat) : Conc :=
  sched.foldl (Conc.step lhfuzz sysOf) c

/-- The system calls an invocation at `pc` has ahead of it, at most. -/
def callsLeft (lhfuzz : Bytes) : Pc → Nat
  | .atStat => lhfuzz.length + 4
  | .atMkostemp => lhfuzz.length + 3
  | .atWrite _ k => lhfuzz.length - k + 2
  | .atRename _ => 1
  | .done _ => 0

/-- What holds of a process with temporary file `t` between two system calls:
the temporary file does not exist before `mkostemp`, holds the first `k` bytes
of the payload while it is written, holds the payload before `rename`; a
process that returned has returned `true` and the payload is in place. -/
def procInv (lhfuzz : Bytes) (t : String) (fs : FS) : Pc → Prop
  | .atStat => fs t = none
  | .atMkostemp => fs t = none
  | .atWrite template k => template = t ∧ k ≤ lhfuzz.length ∧ fs t = some (lhfuzz.take k)
  | .atRename template => template = t ∧ fs t = some lhfuzz
  | .done ret => ret = true ∧ fs LHFUZZ_A_PATH = some lhfuzz

/-- Two processes with the temporary names `aaaaaa` and `bbbbbb`. -/
def twoSuffixes (i : Nat) : String := if i = 0 then "aaaaaa" else "bbbbbb"

/-- The system calls of the two processes all succeed. -/
def twoSys (i : Nat) : Sys :=
  { tmpSuffix := some (twoSuffixes i), writeFail := none, renameOk := true }

/-- One process alone makes `n` system calls. -/
def runProc (lhfuzz : Bytes) (sys : Sys) : Nat → Pc × FS → Pc × FS
  | 0, s => s
  | n + 1, s => runProc lhfuzz sys n (stepProc lhfuzz sys s.1 s.2)

/-! ## Theorems -/

/-! ### Mode classification -/

/-- The loop of `isLDMode` answers `false` exactly when one of the tokens it
visits is `-v`, `-c`, `-E` or `-S`. -/
theorem isLDModeLoop_eq_false_iff (l : List String) :
    isLDModeLoop l = false ↔ ∃ t ∈ l, t = "-c" ∨ t = "-S" ∨ t = "-E" ∨ t = "-v" := by
  induction l with
  | nil => simp [isLDModeLoop]
  | cons a rest ih =>
    unfold isLDModeLoop
    by_cases hv : a = "-v"
    · simp [hv]
    by_cases hc : a = "-c"
    · simp [hc]
    by_cases hE : a = "-E"
    · simp [hE]
    by_cases hS : a = "-S"
    · simp [hS]
    simp [hv, hc, hE, hS, ih]

/-- A token that is none of the four has no effect on the loop of `isLDMode`. -/
theorem isLDModeLoop_skip (t : String) (ht : t ∉ ["-c", "-S", "-E", "-v"])
    (l r : List String) : isLDModeLoop (l ++ t :: r) = isLDModeLoop (l ++ r) := by
  simp only [List.mem_cons, List.mem_singleton, List.not_mem_nil, or_false, not_or] at ht
  induction l with
  | nil => simp [isLDModeLoop, ht.1, ht.2.1, ht.2.2.1, ht.2.2.2]
  | cons a rest ih =>
    rw [List.cons_append, List.cons_append, isLDModeLoop, isLDModeLoop, ih]

/-- The tokens `isLDMode` visits are those at the indices `1 ≤ i < argc`. -/
theorem mem_visited_iff (argc : Nat) (argv : List String) (t : String) :
    t ∈ (argv.take argc).drop 1 ↔ ∃ i, 1 ≤ i ∧ i < argc ∧ argv[i]? = some t := by
  rw [List.mem_iff_getElem?]
  constructor
  · rintro ⟨n, hn⟩
    rw [List.getElem?_drop, List.getElem?_take] at hn
    by_cases h : 1 + n < argc
    · rw [if_pos h] at hn
      exact ⟨1 + n, by omega, h, hn⟩
    · rw [if_neg h] at hn
      cases hn
  · rintro ⟨i, h1, h2, h3⟩
    refine ⟨i - 1, ?_⟩
    rw [List.getElem?_drop, List.getElem?_take]
    have e : 1 + (i - 1) = i := by omega
    rw [e, if_pos h2, h3]

/-- C2: `isLDMode` returns `false` (Compile) if and only if some token at an
index `1 ≤ i < argc` is exactly `-c`, `-S`, `-E` or `-v`, and `true` (Link)
otherwise; the program name at index 0 is not consulted; a token that is not
exactly one of the four (such as `-cfoo` or `-Ewhatever`) never changes the
result, wherever it stands among the user tokens. -/
theorem isLDMode_iff_exact_token :
    (∀ (argc : Nat) (argv : List String),
      (isLDMode argc argv = false ↔
        ∃ i t, 1 ≤ i ∧ i < argc ∧ argv[i]? = some t ∧
          (t = "-c" ∨ t = "-S" ∨ t = "-E" ∨ t = "-v")) ∧
      (isLDMode argc argv = true ↔
        ¬ ∃ i t, 1 ≤ i ∧ i < argc ∧ argv[i]? = some t ∧
          (t = "-c" ∨ t = "-S" ∨ t = "-E" ∨ t = "-v"))) ∧
    (∀ (p q : String) (rest : List String),
      isLDMode (rest.length + 1) (p :: rest) = isLDMode (rest.length + 1) (q :: rest)) ∧
    (∀ (t : String), t ∉ ["-c", "-S", "-E", "-v"] → ∀ (p : String) (l r : List String),
      isLDMode ((l ++ t :: r).length + 1) (p :: (l ++ t :: r))
        = isLDMode ((l ++ r).length + 1) (p :: (l ++ r))) ∧
    "-cfoo" ∉ ["-c", "-S", "-E", "-v"] ∧ "-Ewhatever" ∉ ["-c", "-S", "-E", "-v"] := by
  have key : ∀ (argc : Nat) (argv : List String),
      isLDMode argc argv = false ↔
        ∃ i t, 1 ≤ i ∧ i < argc ∧ argv[i]? = some t ∧
          (t = "-c" ∨ t = "-S" ∨ t = "-E" ∨ t = "-v") := by
    intro argc argv
    unfold isLDMode
    rw [isLDModeLoop_eq_false_iff]
    constructor
    · rintro ⟨t, hm, ht⟩
      obtain ⟨i, h1, h2, h3⟩ := (mem_visited_iff argc argv t).1 hm
      exact ⟨i, t, h1, h2, h3, ht⟩
    · rintro ⟨i, t, h1, h2, h3, ht⟩
      exact ⟨t, (mem_visited_iff argc argv t).2 ⟨i, h1, h2, h3⟩, ht⟩
  refine ⟨fun argc argv => ⟨key argc argv, ?_⟩, ?_, ?_, by decide, by decide⟩
  · rw [← key argc argv]
    cases isLDMode argc argv <;> simp
  · intro p q rest
    simp [isLDMode]
  · intro t ht p l r
    simp only [isLDMode, List.take_succ_cons, List.take_length, List.drop_succ_cons,
      List.drop_zero]
    exact isLDModeLoop_skip t ht l r

/-- Witness of C2 at a token that starts with `-c` without being `-c`. -/
theorem isLDMode_iff_exact_token_witness :
    isLDMode 3 ["cc", "-cfoo", "x.o"] = isLDMode 2 ["cc", "x.o"] :=
  isLDMode_iff_exact_token.2.2.1 "-cfoo" (by decide) "cc" [] ["x.o"]

/-- C3, counterexample: the argument list `-v` contains none of `-c`, `-S`, `-E`,
and the classifier still answers Compile. -/
theorem isLDMode_v_is_compile :
    (∀ t ∈ ["-v"], t ≠ "-c" ∧ t ≠ "-S" ∧ t ≠ "-E") ∧ isLDMode 2 ["hfuzz-clang", "-v"] = false := by
  decide

/-- C3, amended: an argument list containing `-c`, `-S` or `-E` is classified
Compile, and an argument list containing none of `-c`, `-S`, `-E`, `-v` is
classified Link. -/
theorem isLDMode_compile_link (argv0 : String) (args : List String) :
    ((∃ t ∈ args, t = "-c" ∨ t = "-S" ∨ t = "-E") →
      isLDMode (args.length + 1) (argv0 :: args) = false) ∧
    ((∀ t ∈ args, t ≠ "-c" ∧ t ≠ "-S" ∧ t ≠ "-E" ∧ t ≠ "-v") →
      isLDMode (args.length + 1) (argv0 :: args) = true) := by
  have e : isLDMode (args.length + 1) (argv0 :: args) = isLDModeLoop args := by
    simp [isLDMode]
  rw [e]
  constructor
  · rintro ⟨t, hm, ht⟩
    rw [isLDModeLoop_eq_false_iff]
    exact ⟨t, hm, by tauto⟩
  · intro h
    cases hb : isLDModeLoop args with
    | true => rfl
    | false =>
      obtain ⟨t, hm, ht⟩ := (isLDModeLoop_eq_false_iff args).1 hb
      have := h t hm
      tauto

/-- Witness of C3 amended: a link line and a compile line. -/
theorem isLDMode_compile_link_witness :
    isLDMode 3 ["cc", "-S", "x.c"] = false ∧ isLDMode 4 ["cc", "foo.c", "-o", "foo"] = true :=
  ⟨(isLDMode_compile_link "cc" ["-S", "x.c"]).1 ⟨"-S", by decide, by decide⟩,
   (isLDMode_compile_link "cc" ["foo.c", "-o", "foo"]).2 (by decide)⟩

/-! ### Toolchain identity -/

/-- Function `strstr` finds the needle exactly when it is a substring of the haystack. -/
theorem strstr_isSome_iff (hay needle : List Char) :
    (strstr hay needle).isSome = true ↔ needle <:+: hay := by
  induction hay with
  | nil =>
    unfold strstr
    cases needle <;> simp [List.isPrefixOf]
  | cons c cs ih =>
    unfold strstr
    rw [List.infix_cons_iff, ← ih, ← List.isPrefixOf_iff_prefix]
    by_cases h : needle.isPrefixOf (c :: cs) = true
    · simp [h]
    · simp [h]

/-- C4: `isCXX` is set exactly when the program name contains `++`, whether or
not it contains a GCC marker; `isGCC` is set exactly when it contains `gcc` or
`g++`; a name with none of the markers is Clang-family C. -/
theorem identify_markers (argv0 : String) :
    ((identify argv0).isCXX = true ↔ "++".toList <:+: argv0.toList) ∧
    ((identify argv0).isGCC = true ↔
      ("gcc".toList <:+: argv0.toList ∨ "g++".toList <:+: argv0.toList)) ∧
    (¬ "++".toList <:+: argv0.toList → ¬ "gcc".toList <:+: argv0.toList →
      ¬ "g++".toList <:+: argv0.toList → identify argv0 = { isCXX := false, isGCC := false }) := by
  have hx : (identify argv0).isCXX = true ↔ "++".toList <:+: argv0.toList := by
    rw [← strstr_isSome_iff]
    simp [identify]
  have hg : (identify argv0).isGCC = true ↔
      ("gcc".toList <:+: argv0.toList ∨ "g++".toList <:+: argv0.toList) := by
    rw [← strstr_isSome_iff, ← strstr_isSome_iff]
    simp only [identify]
    cases (strstr argv0.toList "gcc".toList).isSome <;>
      cases (strstr argv0.toList "g++".toList).isSome <;> simp
  refine ⟨hx, hg, ?_⟩
  intro h1 h2 h3
  have a : (identify argv0).isCXX = false := by
    cases h : (identify argv0).isCXX with
    | false => rfl
    | true => exact absurd (hx.1 h) h1
  have b : (identify argv0).isGCC = false := by
    cases h : (identify argv0).isGCC with
    | false => rfl
    | true => exact absurd (hg.1 h) (by tauto)
  cases hid : identify argv0 with
  | mk x g =>
    rw [hid] at a b
    simp only at a b
    rw [a, b]

/-- Witness of C4 at the name `hfuzz-clang`, which has none of the markers. -/
theorem identify_markers_witness :
    identify "hfuzz-clang" = { isCXX := false, isGCC := false } :=
  (identify_markers "hfuzz-clang").2.2 (by decide) (by decide) (by decide)

/-! ### Stores into an argument array -/

/-- Stores after an out-of-bounds store change nothing. -/
theorem foldl_store_none (cap : Nat) (xs : List String) :
    xs.foldl (store cap) none = none := by
  induction xs with
  | nil => rfl
  | cons x xs ih => exact ih

/-- A run of stores is in bounds exactly when the array has a slot for each. -/
theorem foldl_store_some (cap : Nat) (xs : List String) :
    ∀ l : List String, l.length ≤ cap → xs.foldl (store cap) (some l)
      = if l.length + xs.length ≤ cap then some (l ++ xs) else none := by
  induction xs with
  | nil =>
    intro l hl
    simp [hl]
  | cons x xs ih =>
    intro l hl
    rw [List.foldl_cons, store]
    by_cases h : l.length < cap
    · rw [if_pos h, ih _ (by rw [List.length_append]; exact h)]
      by_cases h2 : l.length + (x :: xs).length ≤ cap
      · rw [if_pos h2, if_pos (by simp at h2 ⊢; omega)]
        simp
      · rw [if_neg h2, if_neg (by simp at h2 ⊢; omega)]
    · rw [if_neg h, foldl_store_none, if_neg (by simp; omega)]

/-- No store of `NULL` fits behind a full array. -/
theorem storeNull_foldl_full (cap : Nat) (xs : List String) (l : List String)
    (hl : cap ≤ l.length) : storeNull cap (xs.foldl (store cap) (some l)) = none := by
  cases xs with
  | nil => simp [storeNull, hl]
  | cons x xs =>
    rw [List.foldl_cons, store, if_neg (by omega), foldl_store_none]
    rfl

/-- The loop `for (i = 1; i < argc; i++)` visits exactly the user tokens. -/
theorem user_tokens (argv0 : String) (U : List String) :
    ((argv0 :: U).take (U.length + 1)).drop 1 = U := by
  simp

/-- The stores of `ccMode` are in bounds exactly when `args` has a slot for each
token. -/
theorem ccModeArgs_eq (cap : Nat) (id : Identity) (argv0 : String) (U : List String) :
    ccModeArgs cap id (U.length + 1) (argv0 :: U)
      = if (ccModeStores id U).length ≤ cap then some (ccModeStores id U) else none := by
  have h : ccModeArgs cap id (U.length + 1) (argv0 :: U)
      = (ccModeStores id U).foldl (store cap) (some []) := by
    unfold ccModeArgs ccModeStores
    rw [user_tokens, List.foldl_append]
    cases id.isCXX <;> cases id.isGCC <;> rfl
  rw [h, foldl_store_some _ _ _ (Nat.zero_le _)]
  simp

/-- The stores of `ldMode` are in bounds exactly when `args` has a slot for each
token. -/
theorem ldModeArgs_eq (cap : Nat) (id : Identity) (argv0 : String) (U : List String) :
    ldModeArgs cap id (U.length + 1) (argv0 :: U)
      = if (ldModeStores id U).length ≤ cap then some (ldModeStores id U) else none := by
  have h : ldModeArgs cap id (U.length + 1) (argv0 :: U)
      = (ldModeStores id U).foldl (store cap) (some []) := by
    unfold ldModeArgs ldModeStores
    rw [user_tokens, List.foldl_append, List.foldl_append]
    cases id.isCXX <;> cases id.isGCC <;> rfl
  rw [h, foldl_store_some _ _ _ (Nat.zero_le _)]
  simp

/-- At most three sanitizer flags are appended. -/
theorem enabledSanitizers_length (getenv : Environ) :
    (enabledSanitizers getenv).length ≤ 3 := by
  unfold enabledSanitizers
  cases useASAN getenv <;> cases useMSAN getenv <;> cases useUBSAN getenv <;> decide

/-- The sanitizer flags are injected tokens. -/
theorem enabledSanitizers_injected (getenv : Environ) :
    ∀ t ∈ enabledSanitizers getenv, t ∈ injectedTokens := by
  unfold enabledSanitizers
  cases useASAN getenv <;> cases useMSAN getenv <;> cases useUBSAN getenv <;> decide

/-- Lines 77-86 of `execCC`: the stores are those of the enabled sanitizer flags
and of `NULL`, in bounds exactly when the array has a slot for each. -/
theorem execCCArgs_eq (cap : Nat) (getenv : Environ) (argc : Nat) (argv : List String) :
    execCCArgs cap getenv argc argv
      = if (argv.take argc).length + (enabledSanitizers getenv).length + 1 ≤ cap
          then some (argv.take argc ++ enabledSanitizers getenv) else none := by
  have h : execCCArgs cap getenv argc argv
      = storeNull cap ((enabledSanitizers getenv).foldl (store cap) (some (argv.take argc))) := by
    unfold execCCArgs enabledSanitizers
    cases useASAN getenv <;> cases useMSAN getenv <;> cases useUBSAN getenv <;> rfl
  rw [h]
  by_cases h0 : (argv.take argc).length ≤ cap
  swap
  · rw [storeNull_foldl_full _ _ _ (by omega), if_neg (by omega)]
  rw [foldl_store_some _ _ _ h0]
  by_cases h1 : (argv.take argc).length + (enabledSanitizers getenv).length ≤ cap
  · rw [if_pos h1, storeNull]
    by_cases h2 : (argv.take argc).length + (enabledSanitizers getenv).length + 1 ≤ cap
    · rw [if_pos h2, if_pos (by rw [List.length_append]; omega)]
    · rw [if_neg h2, if_neg (by rw [List.length_append]; omega)]
  · rw [if_neg h1, if_neg (by omega)]
    rfl

/-- The call `execCC(j, args)` on a filled array: defined exactly when the array
has slots for the sanitizer flags and `NULL` as well. -/
theorem callExecCC_eq (w : World) (id : Identity) (cap : Nat) (l : List String) :
    callExecCC w id cap (some l)
      = if l.length + (enabledSanitizers w.getenv).length + 1 ≤ cap
          then .made (dispatch w id (l ++ enabledSanitizers w.getenv)) else .undefined := by
  unfold callExecCC execCC
  simp only
  rw [execCCArgs_eq, List.take_length]
  by_cases h : l.length + (enabledSanitizers w.getenv).length + 1 ≤ cap
  · simp [h]
  · simp [h]

/-! ### What `main` dispatches -/

/-- The vector of a dispatch is the one it was given. -/
theorem dispatch_argv (w : World) (id : Identity) (v : List String) :
    (dispatch w id v).argv = v := by
  unfold dispatch
  cases w.getenv "HFUZZ_CC_PATH" with
  | none => rfl
  | some cc_path => by_cases h : w.execvp cc_path v = true <;> simp [h]

/-- A run with an out-of-bounds store dispatches no vector. -/
theorem Run.vector_of_undefined (r : Run) (h : r.exec = .undefined) : r.vector = none := by
  unfold Run.vector
  rw [h]

/-- The number of stores of `ccMode`. -/
theorem ccModeStores_length (id : Identity) (U : List String) :
    (ccModeStores id U).length = (if id.isGCC = true then 5 else 11) + U.length := by
  unfold ccModeStores
  cases id.isGCC <;> simp <;> omega

/-- The number of stores of `ldMode`. -/
theorem ldModeStores_length (id : Identity) (U : List String) :
    (ldModeStores id U).length = (if id.isGCC = true then 10 else 16) + U.length := by
  unfold ldModeStores
  cases id.isGCC <;> simp <;> omega

/-- With no user token `main` goes straight to `execCC` on its own `argv`, an
array of two slots. -/
theorem main_zero (w : World) (argv0 : String) :
    main w argv0 []
      = { fs := w.fs, lib := none,
          exec := callExecCC w (identify argv0) 2 (some [argv0]) } := by
  simp [main]

/-- An accepted invocation is handed to `ldMode` or to `ccMode` according to
`isLDMode`. -/
theorem main_accepted (w : World) (argv0 : String) (U : List String)
    (h1 : 1 < U.length + 1) (h2 : U.length + 1 ≤ ARGS_MAX - 4) :
    main w argv0 U
      = if isLDMode (U.length + 1) (argv0 :: U) = true
          then ldMode w (identify argv0) (U.length + 1) (argv0 :: U)
          else ccMode w (identify argv0) (U.length + 1) (argv0 :: U) := by
  unfold main
  simp only [List.length_cons]
  rw [if_neg (by omega), if_neg (by omega)]

/-- A rejected invocation reaches neither the materializer nor `execCC`. -/
theorem main_rejected (w : World) (argv0 : String) (U : List String)
    (h : ARGS_MAX - 4 < U.length + 1) :
    main w argv0 U = { fs := w.fs, lib := none, exec := .skipped } := by
  unfold main
  simp only [List.length_cons]
  have h' : 4092 < U.length + 1 := h
  rw [if_neg (by omega), if_pos (by exact h)]

/-- The run of `ccMode`: defined exactly when `args` has a slot for every token
of the rewritten vector and for `NULL`. -/
theorem ccMode_run (w : World) (id : Identity) (argv0 : String) (U : List String) :
    (ccMode w id (U.length + 1) (argv0 :: U)).exec
        = (if (ccModeStores id U).length + (enabledSanitizers w.getenv).length + 1 ≤ ARGS_MAX
            then .made (dispatch w id (ccModeStores id U ++ enabledSanitizers w.getenv))
            else .undefined) ∧
    (ccMode w id (U.length + 1) (argv0 :: U)).lib = none ∧
    (ccMode w id (U.length + 1) (argv0 :: U)).fs = w.fs := by
  refine ⟨?_, rfl, rfl⟩
  unfold ccMode
  simp only
  rw [ccModeArgs_eq]
  by_cases h : (ccModeStores id U).length ≤ ARGS_MAX
  · rw [if_pos h, callExecCC_eq]
  · rw [if_neg h, if_neg (by omega)]
    rfl

/-- The run of `ldMode`, by the result of the materializer; after a success it
is defined exactly when `args` has a slot for every token and for `NULL`. -/
theorem ldMode_run (w : World) (id : Identity) (argv0 : String) (U : List String) :
    ((getLibHfuzz w.lhfuzz w.sys w.fs).1 = true →
      (ldMode w id (U.length + 1) (argv0 :: U)).exec
        = (if (ldModeStores id U).length + (enabledSanitizers w.getenv).length + 1 ≤ ARGS_MAX
            then .made (dispatch w id (ldModeStores id U ++ enabledSanitizers w.getenv))
            else .undefined) ∧
      (ldMode w id (U.length + 1) (argv0 :: U)).lib = some true) ∧
    ((getLibHfuzz w.lhfuzz w.sys w.fs).1 = false →
      (ldMode w id (U.length + 1) (argv0 :: U)).exec = .skipped ∧
      (ldMode w id (U.length + 1) (argv0 :: U)).lib = some false) ∧
    (ldMode w id (U.length + 1) (argv0 :: U)).fs = (getLibHfuzz w.lhfuzz w.sys w.fs).2 := by
  unfold ldMode
  rcases hg : getLibHfuzz w.lhfuzz w.sys w.fs with ⟨b, fs⟩
  cases b
  · simp
  · simp only [true_and, implies_true, and_true, Bool.true_eq_false, false_implies]
    rw [ldModeArgs_eq]
    by_cases h : (ldModeStores id U).length ≤ ARGS_MAX
    · rw [if_pos h, callExecCC_eq]
      exact fun _ => rfl
    · rw [if_neg h, if_neg (by omega)]
      exact fun _ => rfl

/-- The loop of `isLDMode` finds nothing among copies of a plain file name. -/
theorem isLDModeLoop_replicate (n : Nat) :
    isLDModeLoop ("foo.c" :: List.replicate n "a.o") = true := by
  cases h : isLDModeLoop ("foo.c" :: List.replicate n "a.o") with
  | true => rfl
  | false =>
    obtain ⟨t, hm, ht⟩ := (isLDModeLoop_eq_false_iff _).1 h
    rcases List.mem_cons.1 hm with hm | hm
    · subst hm
      revert ht
      decide
    · rw [List.eq_of_mem_replicate hm] at ht
      revert ht
      decide

/-! ### Capacity of `args` -/

/-- Every run that `main` accepts with `argc = ARGS_MAX - 4` and that gets to the
rewriter stores past the last slot of `args`. -/
theorem overflow_at_boundary (w : World) (argv0 : String) (U : List String)
    (h : U.length + 1 = ARGS_MAX - 4) :
    (main w argv0 U).exec = .undefined ∨ (main w argv0 U).lib = some false := by
  have h' : U.length + 1 = 4092 := h
  have hs := enabledSanitizers_length w.getenv
  rw [main_accepted w argv0 U (by omega) (by rw [h])]
  cases hmode : isLDMode (U.length + 1) (argv0 :: U) with
  | false =>
    left
    rw [if_neg (by simp), (ccMode_run w _ argv0 U).1, ccModeStores_length, if_neg]
    unfold ARGS_MAX
    cases (identify argv0).isGCC <;> simp <;> omega
  | true =>
    rw [if_pos rfl]
    obtain ⟨hok, hfail, _⟩ := ldMode_run w (identify argv0) argv0 U
    cases hlib : (getLibHfuzz w.lhfuzz w.sys w.fs).1 with
    | false => exact Or.inr (hfail hlib).2
    | true =>
      left
      rw [(hok hlib).1, ldModeStores_length, if_neg]
      unfold ARGS_MAX
      cases (identify argv0).isGCC <;> simp <;> omega

/-- Every accepted run with `argc ≤ ARGS_MAX - 19` stays within the array `args`. -/
theorem in_bounds_below_reserve (w : World) (argv0 : String) (U : List String)
    (h1 : 1 < U.length + 1) (h : U.length + 1 ≤ ARGS_MAX - 19) :
    (main w argv0 U).exec ≠ .undefined := by
  have h' : U.length + 1 ≤ 4077 := h
  have hs := enabledSanitizers_length w.getenv
  rw [main_accepted w argv0 U h1 (by unfold ARGS_MAX; omega)]
  cases hmode : isLDMode (U.length + 1) (argv0 :: U) with
  | false =>
    rw [if_neg (by simp), (ccMode_run w _ argv0 U).1, ccModeStores_length, if_pos]
    · simp
    · unfold ARGS_MAX
      cases (identify argv0).isGCC <;> simp <;> omega
  | true =>
    rw [if_pos rfl]
    obtain ⟨hok, hfail, _⟩ := ldMode_run w (identify argv0) argv0 U
    cases hlib : (getLibHfuzz w.lhfuzz w.sys w.fs).1 with
    | false =>
      rw [(hfail hlib).1]
      simp
    | true =>
      rw [(hok hlib).1, ldModeStores_length, if_pos]
      · simp
      · unfold ARGS_MAX
        cases (identify argv0).isGCC <;> simp <;> omega

/-- C1, the code at a failing input: `main` accepts the Compile-mode invocation
`hfuzz-clang -c a.c ... a.c` with `argc = 4092 = ARGS_MAX - 4`; the run stores
4102 tokens and the terminating `NULL`, which needs 4103 slots, into the
4096-slot array `args`, so a store is out of bounds. -/
theorem args_overflow_at_argc_4092 :
    ("-c" :: List.replicate 4090 "a.c").length + 1 = ARGS_MAX - 4 ∧
    (main (sampleWorld emptyEnviron) "hfuzz-clang" ("-c" :: List.replicate 4090 "a.c")).lib
      = none ∧
    (main (sampleWorld emptyEnviron) "hfuzz-clang" ("-c" :: List.replicate 4090 "a.c")).exec
      = .undefined ∧
    (∀ cap : Nat,
      callExecCC (sampleWorld emptyEnviron) { isCXX := false, isGCC := false } cap
        (ccModeArgs cap { isCXX := false, isGCC := false }
          (("-c" :: List.replicate 4090 "a.c").length + 1)
          ("hfuzz-clang" :: "-c" :: List.replicate 4090 "a.c")) ≠ .undefined ↔ 4103 ≤ cap) ∧
    ARGS_MAX < 4103 := by
  have hlen : ("-c" :: List.replicate 4090 "a.c").length = 4091 := by
    rw [List.length_cons, List.length_replicate]
  have hmode : isLDMode (("-c" :: List.replicate 4090 "a.c").length + 1)
      ("hfuzz-clang" :: "-c" :: List.replicate 4090 "a.c") = false := by
    rw [isLDMode, user_tokens, isLDModeLoop, if_neg (by decide), if_pos rfl]
  have hid : identify "hfuzz-clang" = { isCXX := false, isGCC := false } := by decide
  have hs : enabledSanitizers (sampleWorld emptyEnviron).getenv = [] := by decide
  have hacc := main_accepted (sampleWorld emptyEnviron) "hfuzz-clang"
    ("-c" :: List.replicate 4090 "a.c") (by rw [hlen]; decide) (by rw [hlen]; decide)
  rw [hmode, if_neg (by simp)] at hacc
  have hst : (ccModeStores { isCXX := false, isGCC := false }
      ("-c" :: List.replicate 4090 "a.c")).length = 4102 := by
    rw [ccModeStores_length, hlen]
    rfl
  refine ⟨by rw [hlen]; decide, ?_, ?_, ?_, by decide⟩
  · rw [hacc]
    exact (ccMode_run _ _ _ _).2.1
  · rw [hacc, (ccMode_run _ _ _ _).1, hid, hs, hst, if_neg (by decide)]
  · intro cap
    rw [ccModeArgs_eq, hst]
    by_cases h : 4102 ≤ cap
    · rw [if_pos h, callExecCC_eq, hs, hst]
      by_cases h2 : 4103 ≤ cap
      · rw [if_pos (show 4102 + ([] : List String).length + 1 ≤ cap from h2)]
        exact ⟨fun _ => h2, fun _ hh => by cases hh⟩
      · rw [if_neg (show ¬ 4102 + ([] : List String).length + 1 ≤ cap from h2)]
        exact ⟨fun hh => absurd rfl hh, fun hh => absurd hh h2⟩
    · rw [if_neg h]
      exact ⟨fun hh => absurd rfl hh, fun hh => absurd (by omega) h⟩

/-! ### The argument-count check -/

/-- C11: `main` accepts an invocation with `argc = ARGS_MAX - 4 = 4092`, handing
it to `ldMode` or `ccMode`, and rejects every invocation with `argc > 4092` by
returning `EXIT_FAILURE`; on rejection the materializer was not called, no
`execvp` was attempted and the filesystem is as it was. -/
theorem argc_check_boundary (w : World) (argv0 : String) (U : List String) :
    ARGS_MAX - 4 = 4092 ∧
    (U.length + 1 = ARGS_MAX - 4 →
      main w argv0 U
        = (if isLDMode (U.length + 1) (argv0 :: U) = true
            then ldMode w (identify argv0) (U.length + 1) (argv0 :: U)
            else ccMode w (identify argv0) (U.length + 1) (argv0 :: U)) ∧
      ((main w argv0 U).lib ≠ none ∨ (main w argv0 U).exec ≠ .skipped)) ∧
    (ARGS_MAX - 4 < U.length + 1 →
      (main w argv0 U).status = some EXIT_FAILURE ∧ (main w argv0 U).lib = none ∧
      (main w argv0 U).exec = .skipped ∧ (main w argv0 U).fs = w.fs) := by
  refine ⟨by decide, ?_, ?_⟩
  · intro h
    have h' : U.length + 1 = 4092 := h
    have hacc := main_accepted w argv0 U (by omega) (by rw [h])
    refine ⟨hacc, ?_⟩
    rw [hacc]
    cases hmode : isLDMode (U.length + 1) (argv0 :: U) with
    | false =>
      right
      rw [if_neg (by simp), (ccMode_run w _ argv0 U).1]
      split <;> simp
    | true =>
      left
      rw [if_pos rfl]
      unfold ldMode
      rcases getLibHfuzz w.lhfuzz w.sys w.fs with ⟨b, fs⟩
      cases b <;> simp
  · intro h
    rw [main_rejected w argv0 U h]
    exact ⟨rfl, rfl, rfl, rfl⟩

/-- Witness of C11: 4092 user tokens make `argc = 4093`, which is rejected. -/
theorem argc_check_boundary_witness :
    (main (sampleWorld emptyEnviron) "hfuzz-clang" (List.replicate 4092 "a.c")).status
        = some EXIT_FAILURE ∧
    (main (sampleWorld emptyEnviron) "hfuzz-clang" (List.replicate 4092 "a.c")).lib = none ∧
    (main (sampleWorld emptyEnviron) "hfuzz-clang" (List.replicate 4092 "a.c")).exec
      = .skipped ∧
    (main (sampleWorld emptyEnviron) "hfuzz-clang" (List.replicate 4092 "a.c")).fs
      = (sampleWorld emptyEnviron).fs :=
  (argc_check_boundary (sampleWorld emptyEnviron) "hfuzz-clang" (List.replicate 4092 "a.c")).2.2
    (by rw [List.length_replicate]; decide)

/-! ### Link mode and the materializer -/

/-- C17: if `getLibHfuzz` returns failure, `ldMode` returns `EXIT_FAILURE` with no
argument vector built and no `execvp` attempted, neither on the override nor on
a fallback candidate; so does `main` on every accepted Link-mode invocation. -/
theorem ldMode_stops_without_archive (w : World)
    (h : (getLibHfuzz w.lhfuzz w.sys w.fs).1 = false) :
    (∀ (id : Identity) (argc : Nat) (argv : List String),
      (ldMode w id argc argv).status = some EXIT_FAILURE ∧
      (ldMode w id argc argv).exec = .skipped ∧ (ldMode w id argc argv).vector = none ∧
      (ldMode w id argc argv).lib = some false) ∧
    (∀ (argv0 : String) (U : List String), 1 < U.length + 1 → U.length + 1 ≤ ARGS_MAX - 4 →
      isLDMode (U.length + 1) (argv0 :: U) = true →
      (main w argv0 U).status = some EXIT_FAILURE ∧ (main w argv0 U).exec = .skipped ∧
      (main w argv0 U).vector = none ∧ (main w argv0 U).lib = some false) := by
  have key : ∀ (id : Identity) (argc : Nat) (argv : List String),
      (ldMode w id argc argv).status = some EXIT_FAILURE ∧
      (ldMode w id argc argv).exec = .skipped ∧ (ldMode w id argc argv).vector = none ∧
      (ldMode w id argc argv).lib = some false := by
    intro id argc argv
    unfold ldMode
    rcases hg : getLibHfuzz w.lhfuzz w.sys w.fs with ⟨b, fs⟩
    rw [hg] at h
    simp only at h
    subst h
    exact ⟨rfl, rfl, rfl, rfl⟩
  refine ⟨key, ?_⟩
  intro argv0 U h1 h2 hmode
  rw [main_accepted w argv0 U h1 h2, hmode, if_pos rfl]
  exact key _ _ _

/-- Witness of C17: the archive is absent and `mkostemp` fails. -/
theorem ldMode_stops_without_archive_witness :
    (main (freshWorld { tmpSuffix := none, writeFail := none, renameOk := true })
      "hfuzz-clang" ["foo.c", "-o", "foo"]).status = some EXIT_FAILURE ∧
    (main (freshWorld { tmpSuffix := none, writeFail := none, renameOk := true })
      "hfuzz-clang" ["foo.c", "-o", "foo"]).exec = .skipped ∧
    (main (freshWorld { tmpSuffix := none, writeFail := none, renameOk := true })
      "hfuzz-clang" ["foo.c", "-o", "foo"]).vector = none ∧
    (main (freshWorld { tmpSuffix := none, writeFail := none, renameOk := true })
      "hfuzz-clang" ["foo.c", "-o", "foo"]).lib = some false :=
  (ldMode_stops_without_archive
    (freshWorld { tmpSuffix := none, writeFail := none, renameOk := true }) (by decide)).2
    "hfuzz-clang" ["foo.c", "-o", "foo"] (by decide) (by decide) (by decide)

/-! ### Only Link mode touches the filesystem -/

/-- C20: for every accepted invocation classified Compile (some user token is
`-c`, `-S`, `-E` or `-v`) and for every invocation without arguments, `main`
goes on to the dispatcher without calling the materializer and leaves the
filesystem as it was, whatever it holds; a run that calls the materializer or
changes the filesystem is an accepted Link-mode invocation. -/
theorem only_link_mode_materializes (w : World) (argv0 : String) (U : List String) :
    (1 < U.length + 1 → U.length + 1 ≤ ARGS_MAX - 4 →
      (∃ t ∈ U, t = "-c" ∨ t = "-S" ∨ t = "-E" ∨ t = "-v") →
      isLDMode (U.length + 1) (argv0 :: U) = false ∧ (main w argv0 U).lib = none ∧
      (main w argv0 U).fs = w.fs ∧ (main w argv0 U).exec ≠ .skipped) ∧
    ((main w argv0 []).lib = none ∧ (main w argv0 []).fs = w.fs ∧
      (main w argv0 []).exec ≠ .skipped) ∧
    ((main w argv0 U).lib ≠ none ∨ (main w argv0 U).fs ≠ w.fs →
      1 < U.length + 1 ∧ U.length + 1 ≤ ARGS_MAX - 4 ∧
      isLDMode (U.length + 1) (argv0 :: U) = true) := by
  refine ⟨?_, ?_, ?_⟩
  · intro h1 h2 ht
    have hmode : isLDMode (U.length + 1) (argv0 :: U) = false := by
      rw [isLDMode, user_tokens]
      exact (isLDModeLoop_eq_false_iff U).2 ht
    rw [main_accepted w argv0 U h1 h2, hmode, if_neg (by simp)]
    refine ⟨rfl, rfl, rfl, ?_⟩
    rw [(ccMode_run w _ argv0 U).1]
    split <;> simp
  · rw [main_zero]
    refine ⟨rfl, rfl, ?_⟩
    simp only
    rw [callExecCC_eq]
    split <;> simp
  · intro h
    by_cases h1 : 1 < U.length + 1
    · by_cases h2 : U.length + 1 ≤ ARGS_MAX - 4
      · refine ⟨h1, h2, ?_⟩
        cases hmode : isLDMode (U.length + 1) (argv0 :: U) with
        | true => rfl
        | false =>
          rw [main_accepted w argv0 U h1 h2, hmode, if_neg (by simp)] at h
          rcases h with h | h <;> exact absurd rfl h
      · rw [main_rejected w argv0 U (by omega)] at h
        rcases h with h | h <;> exact absurd rfl h
    · have hU : U = [] := by
        cases U with
        | nil => rfl
        | cons a l => simp at h1
      subst hU
      rw [main_zero] at h
      rcases h with h | h <;> exact absurd rfl h

/-- Witness of C20: a compile line in a world without the archive leaves the
filesystem empty. -/
theorem only_link_mode_materializes_witness :
    isLDMode 3 ["hfuzz-clang", "-c", "foo.c"] = false ∧
    (main (freshWorld { tmpSuffix := some "a1B2c3", writeFail := none, renameOk := true })
      "hfuzz-clang" ["-c", "foo.c"]).lib = none ∧
    (main (freshWorld { tmpSuffix := some "a1B2c3", writeFail := none, renameOk := true })
      "hfuzz-clang" ["-c", "foo.c"]).fs = emptyFS ∧
    (main (freshWorld { tmpSuffix := some "a1B2c3", writeFail := none, renameOk := true })
      "hfuzz-clang" ["-c", "foo.c"]).exec ≠ .skipped :=
  (only_link_mode_materializes
    (freshWorld { tmpSuffix := some "a1B2c3", writeFail := none, renameOk := true })
    "hfuzz-clang" ["-c", "foo.c"]).1 (by decide) (by decide) ⟨"-c", by decide, by decide⟩

/-! ### The dispatcher's vector -/

/-- On every path `dispatch` calls `execvp` at least once. -/
theorem dispatch_tried_ne_nil (w : World) (id : Identity) (v : List String) :
    (dispatch w id v).tried ≠ [] := by
  unfold dispatch
  cases w.getenv "HFUZZ_CC_PATH" with
  | some cc_path => by_cases h : w.execvp cc_path v = true <;> simp [h]
  | none =>
    have h : ∀ (f : String → Bool) (c : String) (cs : List String),
        (execvpSeq f (c :: cs)).1 ≠ [] := by
      intro f c cs
      unfold execvpSeq
      by_cases hc : f c = true <;> simp [hc]
    obtain ⟨x, g⟩ := id
    cases x <;> cases g <;> exact h _ _ _

/-- Where the array has room, `execCC` dispatches the first `n` tokens followed by
the enabled ones of `-fsanitize=address`, `-fsanitize=memory`,
`-fsanitize=undefined`, in that order, each at most once. -/
theorem execCC_in_bounds (w : World) (id : Identity) (cap n : Nat) (argv : List String)
    (hfit : (argv.take n).length + (enabledSanitizers w.getenv).length + 1 ≤ cap) :
    execCC w id cap n argv = some (dispatch w id (argv.take n ++ enabledSanitizers w.getenv)) ∧
    (dispatch w id (argv.take n ++ enabledSanitizers w.getenv)).argv
      = argv.take n
        ++ (if useASAN w.getenv = true then ["-fsanitize=address"] else [])
        ++ (if useMSAN w.getenv = true then ["-fsanitize=memory"] else [])
        ++ (if useUBSAN w.getenv = true then ["-fsanitize=undefined"] else []) ∧
    (enabledSanitizers w.getenv).Sublist
      ["-fsanitize=address", "-fsanitize=memory", "-fsanitize=undefined"] := by
  refine ⟨?_, ?_, ?_⟩
  · unfold execCC
    rw [execCCArgs_eq, if_pos hfit]
  · rw [dispatch_argv]
    unfold enabledSanitizers
    cases useASAN w.getenv <;> cases useMSAN w.getenv <;> cases useUBSAN w.getenv <;> simp
  · unfold enabledSanitizers
    cases useASAN w.getenv <;> cases useMSAN w.getenv <;> cases useUBSAN w.getenv <;> decide

/-- C10, counterexample: with `HFUZZ_CC_ASAN` set to the empty string the toggle
is on and the flag is appended. -/
theorem useASAN_empty_value :
    singleEnviron "HFUZZ_CC_ASAN" "" "HFUZZ_CC_ASAN" = some "" ∧
    useASAN (singleEnviron "HFUZZ_CC_ASAN" "") = true ∧
    execCCArgs ARGS_MAX (singleEnviron "HFUZZ_CC_ASAN" "") 1 ["cc"]
      = some ["cc", "-fsanitize=address"] := by
  decide

/-- C10, amended: a sanitizer toggle enables its flag if and only if its
variable (`HFUZZ_CC_ASAN`, `HFUZZ_CC_MSAN`, `HFUZZ_CC_UBSAN`) is present in the
environment, with any value, the empty string included; when the variable is
absent the flag is not appended, and when it is present the flag is appended
wherever the argument array has a slot for the store. -/
theorem toggle_iff_present (getenv : Environ) (cap n : Nat) (argv : List String) :
    (useASAN getenv = true ↔ ∃ value, getenv "HFUZZ_CC_ASAN" = some value) ∧
    (useMSAN getenv = true ↔ ∃ value, getenv "HFUZZ_CC_MSAN" = some value) ∧
    (useUBSAN getenv = true ↔ ∃ value, getenv "HFUZZ_CC_UBSAN" = some value) ∧
    execCCArgs cap getenv n argv
      = (if (argv.take n).length
            + ((if getenv "HFUZZ_CC_ASAN" = none then [] else ["-fsanitize=address"])
              ++ (if getenv "HFUZZ_CC_MSAN" = none then [] else ["-fsanitize=memory"])
              ++ (if getenv "HFUZZ_CC_UBSAN" = none then [] else ["-fsanitize=undefined"])).length
            + 1 ≤ cap
          then some (argv.take n
            ++ ((if getenv "HFUZZ_CC_ASAN" = none then [] else ["-fsanitize=address"])
              ++ (if getenv "HFUZZ_CC_MSAN" = none then [] else ["-fsanitize=memory"])
              ++ (if getenv "HFUZZ_CC_UBSAN" = none then [] else ["-fsanitize=undefined"])))
          else none) := by
  refine ⟨?_, ?_, ?_, ?_⟩
  · unfold useASAN
    cases getenv "HFUZZ_CC_ASAN" <;> simp
  · unfold useMSAN
    cases getenv "HFUZZ_CC_MSAN" <;> simp
  · unfold useUBSAN
    cases getenv "HFUZZ_CC_UBSAN" <;> simp
  · have e : enabledSanitizers getenv
        = (if getenv "HFUZZ_CC_ASAN" = none then [] else ["-fsanitize=address"])
          ++ (if getenv "HFUZZ_CC_MSAN" = none then [] else ["-fsanitize=memory"])
          ++ (if getenv "HFUZZ_CC_UBSAN" = none then [] else ["-fsanitize=undefined"]) := by
      unfold enabledSanitizers useASAN useMSAN useUBSAN
      cases getenv "HFUZZ_CC_ASAN" <;> cases getenv "HFUZZ_CC_MSAN" <;>
        cases getenv "HFUZZ_CC_UBSAN" <;> simp
    rw [execCCArgs_eq, e]

/-- Witness of C10 amended: a variable with an empty value switches its toggle on. -/
theorem toggle_iff_present_witness :
    useMSAN (singleEnviron "HFUZZ_CC_MSAN" "") = true :=
  (toggle_iff_present (singleEnviron "HFUZZ_CC_MSAN" "") 0 0 []).2.1.2 ⟨"", by decide⟩

/-! ### The zero-argument passthrough -/

/-- C8, counterexample: with `HFUZZ_CC_ASAN` set, the invocation without
arguments is not dispatched with its original vector: `execCC` stores the flag
into `main`'s own `argv` and the store of `NULL` after it is out of bounds. -/
theorem passthrough_with_toggle :
    (main (sampleWorld (singleEnviron "HFUZZ_CC_ASAN" "1")) "hfuzz-clang" []).exec
      = .undefined ∧
    (main (sampleWorld (singleEnviron "HFUZZ_CC_ASAN" "1")) "hfuzz-clang" []).vector
      ≠ some ["hfuzz-clang"] := by
  decide

/-- C8, amended: for every invocation with no argument after the program name,
every identity and every environment in which no sanitizer toggle is set, the
vector passed to the real compiler is exactly the original vector; in every
environment the materializer is not called and the filesystem is left as it
was. -/
theorem passthrough_vector (w : World) (argv0 : String) :
    (useASAN w.getenv = false → useMSAN w.getenv = false → useUBSAN w.getenv = false →
      (main w argv0 []).exec = .made (dispatch w (identify argv0) [argv0]) ∧
      (main w argv0 []).vector = some [argv0]) ∧
    (main w argv0 []).lib = none ∧ (main w argv0 []).fs = w.fs ∧
    (main w argv0 []).exec ≠ .skipped := by
  rw [main_zero]
  refine ⟨?_, rfl, rfl, ?_⟩
  · intro hA hM hU
    have hs : enabledSanitizers w.getenv = [] := by
      simp [enabledSanitizers, hA, hM, hU]
    show callExecCC w (identify argv0) 2 (some [argv0]) = _ ∧ _
    unfold Run.vector
    simp only
    rw [callExecCC_eq, hs]
    simp [dispatch_argv]
  · show callExecCC w (identify argv0) 2 (some [argv0]) ≠ .skipped
    rw [callExecCC_eq]
    split <;> simp

/-- Witness of C8 amended: with an empty environment the vector is the original
one. -/
theorem passthrough_vector_witness :
    (main (sampleWorld emptyEnviron) "hfuzz-clang" []).vector = some ["hfuzz-clang"] :=
  ((passthrough_vector (sampleWorld emptyEnviron) "hfuzz-clang").1
    (by decide) (by decide) (by decide)).2

/-! ### The dispatcher's commands -/

/-- Consecutive `execvp` calls stop at the first command that starts. -/
theorem execvpSeq_eq (start : String → Bool) (l : List String) :
    execvpSeq start l
      = (l.takeWhile (fun c => !start c) ++ (l.find? start).toList, l.find? start) := by
  induction l with
  | nil => rfl
  | cons c cs ih =>
    unfold execvpSeq
    rw [ih, List.takeWhile_cons, List.find?_cons]
    cases hc : start c <;> simp

/-- Every defined result of `execCC` is the dispatch of the vector it built. -/
theorem execCC_eq_dispatch (w : World) (id : Identity) (cap argc : Nat) (argv : List String)
    (e : Exec) (h : execCC w id cap argc argv = some e) : e = dispatch w id e.argv := by
  unfold execCC at h
  cases ha : execCCArgs cap w.getenv argc argv with
  | none => rw [ha] at h; cases h
  | some v =>
    rw [ha] at h
    injection h with h
    rw [← h, dispatch_argv]

/-- Wherever the stores of `execCC` are in bounds and `HFUZZ_CC_PATH` is set,
`execvp` is called on that command and on no other; if the command cannot be
started `execCC` returns `EXIT_FAILURE` and none of the built-in names was
attempted. -/
theorem override_exclusive (w : World) (id : Identity) (v : List String)
    (cc_path : String) (h : w.getenv "HFUZZ_CC_PATH" = some cc_path) :
    (dispatch w id v).tried = [cc_path] ∧
    (w.execvp cc_path v = true →
      (dispatch w id v).image = some cc_path ∧ (dispatch w id v).status = none) ∧
    (w.execvp cc_path v = false →
      (dispatch w id v).image = none ∧ (dispatch w id v).status = some EXIT_FAILURE ∧
      ∀ c ∈ candidates id, c ≠ cc_path → c ∉ (dispatch w id v).tried) := by
  unfold dispatch
  rw [h]
  by_cases hx : w.execvp cc_path v = true
  · simp [hx, Exec.status]
  · simp [hx, Exec.status]

/-- C12, the code at a failing input: the invocation without arguments with
`HFUZZ_CC_ASAN` and `HFUZZ_CC_PATH` set. Before `execCC` reads the override it
stores the flag in `argv[1]` and `NULL` in `argv[2]`, past the end of `main`'s
`argv`: no call of the override is defined. -/
theorem passthrough_override_not_reached :
    overrideEnviron "/usr/bin/gcc" "HFUZZ_CC_PATH" = some "/usr/bin/gcc" ∧
    execCC (sampleWorld (overrideEnviron "/usr/bin/gcc")) (identify "hfuzz-clang") 2 1
      ["hfuzz-clang"] = none ∧
    (main (sampleWorld (overrideEnviron "/usr/bin/gcc")) "hfuzz-clang" []).exec
      = .undefined := by
  decide

/-- C13: with no override set, `execCC` goes through the candidate list of the
identity in its fixed order; the process is replaced by the first candidate
that can be started, the commands tried are the candidates before it (all of
which failed to start) and that one, every call gets the same vector, and
`execCC` returns `EXIT_FAILURE` exactly when no candidate can be started. This
holds of lines 88-128 on every vector, and so of every call of `execCC` whose
stores are in bounds. -/
theorem fallback_order (w : World) (id : Identity) (v : List String)
    (h : w.getenv "HFUZZ_CC_PATH" = none) :
    candidates { isCXX := true, isGCC := false }
      = ["clang++-devel", "clang++-6.0", "clang++-5.0", "clang++-4.0", "clang++", "clang"] ∧
    candidates { isCXX := false, isGCC := false }
      = ["clang-devel", "clang-6.0", "clang-5.0", "clang-4.0", "clang"] ∧
    candidates { isCXX := true, isGCC := true }
      = ["g++-8", "g++-7", "g++-6", "g++-5", "g++", "gcc"] ∧
    candidates { isCXX := false, isGCC := true }
      = ["gcc-8", "gcc-7", "gcc-6", "gcc-5", "gcc"] ∧
    (dispatch w id v).argv = v ∧
    (dispatch w id v).image = (candidates id).find? (fun c => w.execvp c v) ∧
    (dispatch w id v).tried
      = (candidates id).takeWhile (fun c => !w.execvp c v) ++ (dispatch w id v).image.toList ∧
    (dispatch w id v).tried <+: candidates id ∧
    (∀ c ∈ (dispatch w id v).tried, (dispatch w id v).image ≠ some c → w.execvp c v = false) ∧
    ((dispatch w id v).status = some EXIT_FAILURE ↔ ∀ c ∈ candidates id, w.execvp c v = false) ∧
    (∀ (cap argc : Nat) (argv : List String) (e : Exec),
      execCC w id cap argc argv = some e → e = dispatch w id e.argv) := by
  have e : dispatch w id v
      = { argv := v
          tried := (candidates id).takeWhile (fun c => !w.execvp c v)
            ++ ((candidates id).find? (fun c => w.execvp c v)).toList
          image := (candidates id).find? (fun c => w.execvp c v) } := by
    unfold dispatch
    rw [h]
    simp only [execvpSeq_eq]
  rw [e]
  refine ⟨rfl, rfl, rfl, rfl, rfl, rfl, rfl, ?_, ?_, ?_,
    fun cap argc argv e he => execCC_eq_dispatch w id cap argc argv e he⟩
  · simp only
    cases hf : (candidates id).find? (fun c => w.execvp c v) with
    | none =>
      rw [List.find?_eq_none] at hf
      have : (candidates id).takeWhile (fun c => !w.execvp c v) = candidates id := by
        rw [List.takeWhile_eq_self_iff]
        intro c hc
        simpa using hf c hc
      simp [this]
    | some c =>
      obtain ⟨hc, as, bs, hl, hnot⟩ := List.find?_eq_some.1 hf
      have htw : (candidates id).takeWhile (fun c => !w.execvp c v) = as := by
        rw [hl, List.takeWhile_append_of_pos, List.takeWhile_cons]
        · simp [hc]
        · intro a ha
          simpa using hnot a ha
      rw [htw, hl]
      exact ⟨bs, by simp⟩
  · simp only
    intro c hc hne
    rcases List.mem_append.1 hc with hc | hc
    · simpa using (List.mem_takeWhile_imp hc)
    · rw [Option.mem_toList] at hc
      exact absurd (Option.mem_def.1 hc) hne
  · simp only [Exec.status]
    cases hf : (candidates id).find? (fun c => w.execvp c v) with
    | none =>
      rw [List.find?_eq_none] at hf
      simpa using hf
    | some c =>
      have hc := List.find?_some hf
      have hm := List.mem_of_find?_eq_some hf
      simp only [false_iff, reduceCtorEq]
      intro hall
      rw [hall c hm] at hc
      cases hc

/-- Witness of C13: in a world where only `clang` can be started, the Clang C
identity tries its five candidates in order and becomes `clang`. -/
theorem fallback_order_witness :
    (dispatch (sampleWorld emptyEnviron) { isCXX := false, isGCC := false } ["cc", "x.c"]).tried
      = ["clang-devel", "clang-6.0", "clang-5.0", "clang-4.0", "clang"] ∧
    (dispatch (sampleWorld emptyEnviron) { isCXX := false, isGCC := false } ["cc", "x.c"]).image
      = some "clang" := by
  have h := fallback_order (sampleWorld emptyEnviron) { isCXX := false, isGCC := false }
    ["cc", "x.c"] (by decide)
  refine ⟨?_, ?_⟩
  · rw [h.2.2.2.2.2.2.1, h.2.2.2.2.2.1]
    decide
  · rw [h.2.2.2.2.2.1]
    decide

/-! ### Compile mode -/

/-- Where `args` has room, the vector of an accepted Compile-mode invocation with
no sanitizer toggle set is the front-end name, the coverage flags of the
family, the three optimization flags and the user tokens unchanged, with no
archive token and no call of the materializer. -/
theorem ccMode_vector_in_bounds (w : World) (argv0 : String) (U : List String)
    (h1 : 1 < U.length + 1) (hfit : U.length + 12 ≤ ARGS_MAX)
    (hmode : isLDMode (U.length + 1) (argv0 :: U) = false)
    (hA : useASAN w.getenv = false) (hM : useMSAN w.getenv = false)
    (hU : useUBSAN w.getenv = false) :
    (main w argv0 U).vector
      = some ([if (identify argv0).isCXX = true then "c++" else "cc"]
        ++ (if (identify argv0).isGCC = true then ["-fsanitize-coverage=trace-pc"]
            else ["-fsanitize-coverage=trace-pc-guard,trace-cmp,indirect-calls",
              "-mllvm", "-sanitizer-coverage-prune-blocks=0",
              "-mllvm", "-sanitizer-coverage-block-threshold=10000000",
              "-mllvm", "-sanitizer-coverage-level=2"])
        ++ ["-funroll-loops", "-fno-inline", "-fno-builtin"] ++ U) ∧
    (main w argv0 U).lib = none := by
  have hfit' : U.length + 12 ≤ 4096 := hfit
  have hs : enabledSanitizers w.getenv = [] := by
    simp [enabledSanitizers, hA, hM, hU]
  rw [main_accepted w argv0 U h1 (by unfold ARGS_MAX; omega), hmode, if_neg (by simp)]
  refine ⟨?_, (ccMode_run w _ argv0 U).2.1⟩
  unfold Run.vector
  rw [(ccMode_run w _ argv0 U).1, hs, ccModeStores_length, if_pos]
  · simp [dispatch_argv, ccModeStores]
  · unfold ARGS_MAX
    cases (identify argv0).isGCC <;> simp <;> omega

/-- A split `v = pre ++ U ++ post` is one of the splits of `v` at a position
`k ≤ v.length`. -/
theorem split_at_position (v pre U post : List String) (h : v = pre ++ U ++ post) :
    pre.length ≤ v.length ∧ (v.drop pre.length).take U.length = U ∧
      v.drop (pre.length + U.length) = post := by
  subst h
  refine ⟨by simp, ?_, ?_⟩
  · simp [List.append_assoc]
  · rw [← List.length_append, List.drop_left]

/-- C6, counterexample: for the program name `hfuzz-clang` and the user tokens
`foo.c -o foo` the vector has the bracketed archive path before the user tokens;
in no reading of where the user tokens stand does the bracketed path come
after them. -/
theorem bracket_not_after_user_tokens :
    (main (sampleWorld emptyEnviron) "hfuzz-clang" ["foo.c", "-o", "foo"]).vector
      = some ["cc", "-Wl,-z,muldefs", "-Wl,--whole-archive", "/tmp/libhfuzz.a",
          "-Wl,--no-whole-archive",
          "-fsanitize-coverage=trace-pc-guard,trace-cmp,indirect-calls",
          "-mllvm", "-sanitizer-coverage-prune-blocks=0",
          "-mllvm", "-sanitizer-coverage-block-threshold=10000000",
          "-mllvm", "-sanitizer-coverage-level=2",
          "-funroll-loops", "-fno-inline", "-fno-builtin",
          "foo.c", "-o", "foo", "/tmp/libhfuzz.a"] ∧
    ∀ pre post : List String,
      ["cc", "-Wl,-z,muldefs", "-Wl,--whole-archive", "/tmp/libhfuzz.a",
          "-Wl,--no-whole-archive",
          "-fsanitize-coverage=trace-pc-guard,trace-cmp,indirect-calls",
          "-mllvm", "-sanitizer-coverage-prune-blocks=0",
          "-mllvm", "-sanitizer-coverage-block-threshold=10000000",
          "-mllvm", "-sanitizer-coverage-level=2",
          "-funroll-loops", "-fno-inline", "-fno-builtin",
          "foo.c", "-o", "foo", "/tmp/libhfuzz.a"] = pre ++ ["foo.c", "-o", "foo"] ++ post →
      ¬ ["-Wl,--whole-archive", "/tmp/libhfuzz.a", "-Wl,--no-whole-archive"] <:+: post := by
  refine ⟨?_, ?_⟩
  · decide
  intro pre post h
  obtain ⟨hk, hU, hpost⟩ := split_at_position _ pre _ post h
  have all : ∀ k ∈ List.range 20,
      ((["cc", "-Wl,-z,muldefs", "-Wl,--whole-archive", "/tmp/libhfuzz.a",
          "-Wl,--no-whole-archive",
          "-fsanitize-coverage=trace-pc-guard,trace-cmp,indirect-calls",
          "-mllvm", "-sanitizer-coverage-prune-blocks=0",
          "-mllvm", "-sanitizer-coverage-block-threshold=10000000",
          "-mllvm", "-sanitizer-coverage-level=2",
          "-funroll-loops", "-fno-inline", "-fno-builtin",
          "foo.c", "-o", "foo", "/tmp/libhfuzz.a"].drop k).take 3 = ["foo.c", "-o", "foo"] →
      "-Wl,--whole-archive" ∉
        (["cc", "-Wl,-z,muldefs", "-Wl,--whole-archive", "/tmp/libhfuzz.a",
          "-Wl,--no-whole-archive",
          "-fsanitize-coverage=trace-pc-guard,trace-cmp,indirect-calls",
          "-mllvm", "-sanitizer-coverage-prune-blocks=0",
          "-mllvm", "-sanitizer-coverage-block-threshold=10000000",
          "-mllvm", "-sanitizer-coverage-level=2",
          "-funroll-loops", "-fno-inline", "-fno-builtin",
          "foo.c", "-o", "foo", "/tmp/libhfuzz.a"].drop (k + 3))) := by
    decide
  have hk' : pre.length ∈ List.range 20 := by
    rw [List.mem_range]
    simp only [List.length_cons, List.length_nil] at hk
    omega
  have hnot := all pre.length hk' hU
  simp only [List.length_cons, List.length_nil] at hpost
  rw [hpost] at hnot
  intro hin
  exact hnot (hin.subset (by simp))

/-- C6, amended: for every accepted Link-mode invocation whose archive
materialization succeeds and whose rewritten vector, with the terminating
`NULL`, fits the 4096 slots of `args`, the vector contains, before the user
tokens, the archive path bracketed by the whole-archive and no-whole-archive
directives, and, directly after the user tokens, a trailing plain occurrence
of the same archive path, followed only by the flags of the enabled sanitizer
toggles. -/
theorem archive_before_and_after_user_tokens (w : World) (argv0 : String) (U : List String)
    (h1 : 1 < U.length + 1) (h2 : U.length + 1 ≤ ARGS_MAX - 4)
    (hmode : isLDMode (U.length + 1) (argv0 :: U) = true)
    (hlib : (getLibHfuzz w.lhfuzz w.sys w.fs).1 = true)
    (hfit : (ldModeStores (identify argv0) U).length + (enabledSanitizers w.getenv).length + 1
      ≤ ARGS_MAX) :
    ∃ pre : List String,
      (main w argv0 U).vector
        = some (pre ++ U ++ [LHFUZZ_A_PATH] ++ enabledSanitizers w.getenv) ∧
      ["-Wl,--whole-archive", LHFUZZ_A_PATH, "-Wl,--no-whole-archive"] <:+: pre ∧
      (∀ t ∈ pre, t ∈ injectedTokens) := by
  rw [main_accepted w argv0 U h1 h2, hmode, if_pos rfl]
  unfold Run.vector
  rw [((ldMode_run w (identify argv0) argv0 U).1 hlib).1, if_pos hfit]
  simp only [dispatch_argv]
  refine ⟨[if (identify argv0).isCXX = true then "c++" else "cc", "-Wl,-z,muldefs",
      "-Wl,--whole-archive", LHFUZZ_A_PATH, "-Wl,--no-whole-archive"]
    ++ (if (identify argv0).isGCC = true then ["-fsanitize-coverage=trace-pc"]
        else ["-fsanitize-coverage=trace-pc-guard,trace-cmp,indirect-calls",
          "-mllvm", "-sanitizer-coverage-prune-blocks=0",
          "-mllvm", "-sanitizer-coverage-block-threshold=10000000",
          "-mllvm", "-sanitizer-coverage-level=2"])
    ++ ["-funroll-loops", "-fno-inline", "-fno-builtin"], rfl, ?_, ?_⟩
  · refine ⟨[if (identify argv0).isCXX = true then "c++" else "cc", "-Wl,-z,muldefs"],
      (if (identify argv0).isGCC = true then ["-fsanitize-coverage=trace-pc"]
            else ["-fsanitize-coverage=trace-pc-guard,trace-cmp,indirect-calls",
              "-mllvm", "-sanitizer-coverage-prune-blocks=0",
              "-mllvm", "-sanitizer-coverage-block-threshold=10000000",
              "-mllvm", "-sanitizer-coverage-level=2"])
        ++ ["-funroll-loops", "-fno-inline", "-fno-builtin"], ?_⟩
    simp
  · cases (identify argv0).isCXX <;> cases (identify argv0).isGCC <;> decide

/-- Witness of C6 amended: the link line `foo.c -o foo` under the name
`hfuzz-clang`. -/
theorem archive_before_and_after_user_tokens_witness :
    ∃ pre : List String,
      (main (sampleWorld emptyEnviron) "hfuzz-clang" ["foo.c", "-o", "foo"]).vector
        = some (pre ++ ["foo.c", "-o", "foo"] ++ [LHFUZZ_A_PATH]
            ++ enabledSanitizers emptyEnviron) ∧
      ["-Wl,--whole-archive", LHFUZZ_A_PATH, "-Wl,--no-whole-archive"] <:+: pre ∧
      (∀ t ∈ pre, t ∈ injectedTokens) :=
  archive_before_and_after_user_tokens (sampleWorld emptyEnviron) "hfuzz-clang"
    ["foo.c", "-o", "foo"] (by decide) (by decide) (by decide) (by decide) (by decide)

/-! ### User tokens pass through -/

/-- Every vector that an accepted invocation with at least one user token
dispatches is `pre ++ U ++ post` with `U` the user tokens `argv[1..argc-1]`,
unchanged and in one block, and `pre` and `post` made of injected tokens
only. -/
theorem user_tokens_contiguous (w : World) (argv0 : String) (U : List String)
    (h1 : 1 < U.length + 1) (h2 : U.length + 1 ≤ ARGS_MAX - 4) :
    ∀ v, (main w argv0 U).vector = some v →
      ∃ pre post : List String, v = pre ++ U ++ post ∧
        (∀ t ∈ pre, t ∈ injectedTokens) ∧ (∀ t ∈ post, t ∈ injectedTokens) := by
  rw [main_accepted w argv0 U h1 h2]
  unfold Run.vector
  cases hmode : isLDMode (U.length + 1) (argv0 :: U) with
  | false =>
    rw [if_neg (by simp), (ccMode_run w _ argv0 U).1]
    intro v hv
    by_cases hfit : (ccModeStores (identify argv0) U).length
        + (enabledSanitizers w.getenv).length + 1 ≤ ARGS_MAX
    · rw [if_pos hfit] at hv
      simp only [dispatch_argv] at hv
      injection hv with hv
      subst hv
      refine ⟨_, enabledSanitizers w.getenv, rfl, ?_, enabledSanitizers_injected w.getenv⟩
      cases (identify argv0).isCXX <;> cases (identify argv0).isGCC <;> decide
    · rw [if_neg hfit] at hv
      cases hv
  | true =>
    rw [if_pos rfl]
    obtain ⟨hok, hfail, _⟩ := ldMode_run w (identify argv0) argv0 U
    cases hlib : (getLibHfuzz w.lhfuzz w.sys w.fs).1 with
    | false =>
      rw [(hfail hlib).1]
      intro v hv
      cases hv
    | true =>
      rw [(hok hlib).1]
      intro v hv
      by_cases hfit : (ldModeStores (identify argv0) U).length
          + (enabledSanitizers w.getenv).length + 1 ≤ ARGS_MAX
      swap
      · rw [if_neg hfit] at hv
        cases hv
      · rw [if_pos hfit] at hv
        simp only [dispatch_argv] at hv
        injection hv with hv
        subst hv
        refine ⟨[if (identify argv0).isCXX = true then "c++" else "cc", "-Wl,-z,muldefs",
            "-Wl,--whole-archive", LHFUZZ_A_PATH, "-Wl,--no-whole-archive"]
          ++ (if (identify argv0).isGCC = true then ["-fsanitize-coverage=trace-pc"]
              else ["-fsanitize-coverage=trace-pc-guard,trace-cmp,indirect-calls",
                "-mllvm", "-sanitizer-coverage-prune-blocks=0",
                "-mllvm", "-sanitizer-coverage-block-threshold=10000000",
                "-mllvm", "-sanitizer-coverage-level=2"])
          ++ ["-funroll-loops", "-fno-inline", "-fno-builtin"],
          [LHFUZZ_A_PATH] ++ enabledSanitizers w.getenv, ?_, ?_, ?_⟩
        · simp only [ldModeStores, List.append_assoc]
        · cases (identify argv0).isCXX <;> cases (identify argv0).isGCC <;> decide
        · intro t ht
          rcases List.mem_append.1 ht with ht | ht
          · rw [List.mem_singleton] at ht
            subst ht
            decide
          · exact enabledSanitizers_injected w.getenv t ht

/-- C7, the code at a failing input: `main` accepts the Link-mode invocation
`hfuzz-gcc foo.c a.o ... a.o` with `argc = 4092`; the archive is in place;
`ldMode` has 4101 tokens to store into the 4096 slots of `args`, a store is out
of bounds and no vector with the user tokens is dispatched. -/
theorem link_vector_undefined_at_argc_4092 :
    ("foo.c" :: List.replicate 4090 "a.o").length + 1 = ARGS_MAX - 4 ∧
    isLDMode (("foo.c" :: List.replicate 4090 "a.o").length + 1)
      ("hfuzz-gcc" :: "foo.c" :: List.replicate 4090 "a.o") = true ∧
    (main (sampleWorld emptyEnviron) "hfuzz-gcc" ("foo.c" :: List.replicate 4090 "a.o")).lib
      = some true ∧
    (ldModeStores (identify "hfuzz-gcc") ("foo.c" :: List.replicate 4090 "a.o")).length
      = 4101 ∧
    (main (sampleWorld emptyEnviron) "hfuzz-gcc" ("foo.c" :: List.replicate 4090 "a.o")).exec
      = .undefined ∧
    (main (sampleWorld emptyEnviron) "hfuzz-gcc" ("foo.c" :: List.replicate 4090 "a.o")).vector
      = none := by
  have hlen : ("foo.c" :: List.replicate 4090 "a.o").length = 4091 := by
    rw [List.length_cons, List.length_replicate]
  have hmode : isLDMode (("foo.c" :: List.replicate 4090 "a.o").length + 1)
      ("hfuzz-gcc" :: "foo.c" :: List.replicate 4090 "a.o") = true := by
    rw [isLDMode, user_tokens]
    exact isLDModeLoop_replicate 4090
  have hid : identify "hfuzz-gcc" = { isCXX := false, isGCC := true } := by decide
  have hs : enabledSanitizers (sampleWorld emptyEnviron).getenv = [] := by decide
  have hst : (ldModeStores (identify "hfuzz-gcc")
      ("foo.c" :: List.replicate 4090 "a.o")).length = 4101 := by
    rw [ldModeStores_length, hlen, hid]
    rfl
  have hacc := main_accepted (sampleWorld emptyEnviron) "hfuzz-gcc"
    ("foo.c" :: List.replicate 4090 "a.o") (by rw [hlen]; decide) (by rw [hlen]; decide)
  rw [hmode, if_pos rfl] at hacc
  have hrun := (ldMode_run (sampleWorld emptyEnviron) (identify "hfuzz-gcc") "hfuzz-gcc"
    ("foo.c" :: List.replicate 4090 "a.o")).1 (by decide)
  have hex : (main (sampleWorld emptyEnviron) "hfuzz-gcc"
      ("foo.c" :: List.replicate 4090 "a.o")).exec = .undefined := by
    rw [hacc, hrun.1, hs, hst, if_neg (by decide)]
  exact ⟨by rw [hlen]; decide, hmode, by rw [hacc]; exact hrun.2, hst, hex,
    Run.vector_of_undefined _ hex⟩

/-- Where `args` has room, the vector `ldMode` hands to `execCC` is the front-end
name, the four linker tokens, the coverage and optimization flags, the user
tokens and the archive path: the vector of `ccMode` with the four linker tokens
after the front-end name and the archive path appended, so that the archive
path is injected exactly twice. -/
theorem ldMode_vector_in_bounds (id : Identity) (argv0 : String) (U : List String)
    (hfit : U.length + 16 ≤ ARGS_MAX) :
    LHFUZZ_A_PATH = "/tmp/libhfuzz.a" ∧
    ldModeArgs ARGS_MAX id (U.length + 1) (argv0 :: U)
      = some ([if id.isCXX = true then "c++" else "cc", "-Wl,-z,muldefs", "-Wl,--whole-archive",
          "/tmp/libhfuzz.a", "-Wl,--no-whole-archive"]
        ++ (if id.isGCC = true then ["-fsanitize-coverage=trace-pc"]
            else ["-fsanitize-coverage=trace-pc-guard,trace-cmp,indirect-calls",
              "-mllvm", "-sanitizer-coverage-prune-blocks=0",
              "-mllvm", "-sanitizer-coverage-block-threshold=10000000",
              "-mllvm", "-sanitizer-coverage-level=2"])
        ++ ["-funroll-loops", "-fno-inline", "-fno-builtin"] ++ U ++ ["/tmp/libhfuzz.a"]) ∧
    ldModeStores id U
      = (ccModeStores id U).take 1
        ++ ["-Wl,-z,muldefs", "-Wl,--whole-archive", "/tmp/libhfuzz.a", "-Wl,--no-whole-archive"]
        ++ (ccModeStores id U).drop 1 ++ ["/tmp/libhfuzz.a"] ∧
    (ldModeStores id U).count "/tmp/libhfuzz.a" = 2 + U.count "/tmp/libhfuzz.a" := by
  have hfit' : U.length + 16 ≤ 4096 := hfit
  refine ⟨rfl, ?_, ?_, ?_⟩
  · rw [ldModeArgs_eq, ldModeStores_length, if_pos]
    · rfl
    · unfold ARGS_MAX
      cases id.isGCC <;> simp <;> omega
  · unfold ldModeStores ccModeStores
    cases id.isCXX <;> cases id.isGCC <;> simp [LHFUZZ_A_PATH]
  · unfold ldModeStores
    cases id.isCXX <;> cases id.isGCC <;>
      simp [LHFUZZ_A_PATH, List.count_append, List.count_cons, List.count_nil] <;> omega

/-- C19, the code at a failing input: `main` accepts the Link-mode invocation
`hfuzz-clang foo.c a.o ... a.o` with `argc = 4092`; the archive is in place;
`ldMode` has 4107 tokens to store into the 4096 slots of `args`: its own stores
go out of bounds before `execCC` is called, so it hands no defined vector to
the dispatcher. -/
theorem ldMode_stores_out_of_bounds_at_argc_4092 :
    ("foo.c" :: List.replicate 4090 "a.o").length + 1 = ARGS_MAX - 4 ∧
    isLDMode (("foo.c" :: List.replicate 4090 "a.o").length + 1)
      ("hfuzz-clang" :: "foo.c" :: List.replicate 4090 "a.o") = true ∧
    (ldModeStores (identify "hfuzz-clang") ("foo.c" :: List.replicate 4090 "a.o")).length
      = 4107 ∧
    ldModeArgs ARGS_MAX (identify "hfuzz-clang") (("foo.c" :: List.replicate 4090 "a.o").length + 1)
      ("hfuzz-clang" :: "foo.c" :: List.replicate 4090 "a.o") = none ∧
    (main (sampleWorld emptyEnviron) "hfuzz-clang" ("foo.c" :: List.replicate 4090 "a.o")).exec
      = .undefined := by
  have hlen : ("foo.c" :: List.replicate 4090 "a.o").length = 4091 := by
    rw [List.length_cons, List.length_replicate]
  have hmode : isLDMode (("foo.c" :: List.replicate 4090 "a.o").length + 1)
      ("hfuzz-clang" :: "foo.c" :: List.replicate 4090 "a.o") = true := by
    rw [isLDMode, user_tokens]
    exact isLDModeLoop_replicate 4090
  have hid : identify "hfuzz-clang" = { isCXX := false, isGCC := false } := by decide
  have hs : enabledSanitizers (sampleWorld emptyEnviron).getenv = [] := by decide
  have hst : (ldModeStores (identify "hfuzz-clang")
      ("foo.c" :: List.replicate 4090 "a.o")).length = 4107 := by
    rw [ldModeStores_length, hlen, hid]
    rfl
  have hacc := main_accepted (sampleWorld emptyEnviron) "hfuzz-clang"
    ("foo.c" :: List.replicate 4090 "a.o") (by rw [hlen]; decide) (by rw [hlen]; decide)
  rw [hmode, if_pos rfl] at hacc
  have hrun := (ldMode_run (sampleWorld emptyEnviron) (identify "hfuzz-clang") "hfuzz-clang"
    ("foo.c" :: List.replicate 4090 "a.o")).1 (by decide)
  refine ⟨by rw [hlen]; decide, hmode, hst, ?_, ?_⟩
  · rw [ldModeArgs_eq, hst, if_neg (by decide)]
  · rw [hacc, hrun.1, hs, hst, if_neg (by decide)]

/-! ### The archive materializer -/

/-- The fast path: a file of the embedded length at the well-known path. -/
theorem getLibHfuzz_upToDate (l : Bytes) (sys : Sys) (fs : FS) (b : Bytes)
    (hb : fs LHFUZZ_A_PATH = some b) (hlen : b.length = l.length) :
    getLibHfuzz l sys fs = (true, fs) ∧ getLibHfuzzCalls l sys fs = ["stat"] := by
  unfold getLibHfuzz getLibHfuzzCalls
  simp [hb, hlen]

/-- The slow path, by the outcomes of the system calls. -/
theorem getLibHfuzz_slow (l : Bytes) (sys : Sys) (fs : FS)
    (h : ∀ b, fs LHFUZZ_A_PATH = some b → b.length ≠ l.length) :
    getLibHfuzz l sys fs
      = (match sys.tmpSuffix with
        | none => (false, fs)
        | some sfx =>
          if (fs (tempName sfx)).isSome = true then (false, fs)
          else match sys.writeFail with
            | some k => (false, (fs.write (tempName sfx) []).write (tempName sfx) (l.take k))
            | none =>
              if sys.renameOk = true then
                (true, ((fs.write (tempName sfx) []).write (tempName sfx) l).rename
                  (tempName sfx) LHFUZZ_A_PATH)
              else
                (false, ((fs.write (tempName sfx) []).write (tempName sfx) l).unlink
                  (tempName sfx))) := by
  have hup : (match fs LHFUZZ_A_PATH with
      | some st => decide (st.length = l.length)
      | none => false) = false := by
    cases hb : fs LHFUZZ_A_PATH with
    | none => rfl
    | some b => simpa using h b hb
  unfold getLibHfuzz
  simp only [hup, mkostemp, files_writeToFd, tempName]
  cases sys.tmpSuffix with
  | none => rfl
  | some sfx =>
    simp only
    by_cases hex : (fs ("/tmp/libhfuzz.a." ++ sfx)).isSome = true
    · simp [hex]
    · simp only [hex]
      cases sys.writeFail with
      | some k => simp
      | none =>
        cases sys.renameOk <;> simp

/-- A temporary name is never the well-known path. -/
theorem tempName_ne_path (sfx : String) : tempName sfx ≠ LHFUZZ_A_PATH := by
  intro h
  have hl := congrArg String.length h
  rw [tempName, String.length_append] at hl
  have h1 : "/tmp/libhfuzz.a.".length = 16 := by decide
  have h2 : LHFUZZ_A_PATH.length = 15 := by decide
  omega

/-- What a successful call leaves: either the file was up to date and nothing
changed, or the call put the embedded bytes at the well-known path. -/
theorem getLibHfuzz_success (l : Bytes) (sys : Sys) (fs : FS)
    (h : (getLibHfuzz l sys fs).1 = true) :
    (∃ b, fs LHFUZZ_A_PATH = some b ∧ b.length = l.length ∧ (getLibHfuzz l sys fs).2 = fs) ∨
    ((∀ b, fs LHFUZZ_A_PATH = some b → b.length ≠ l.length) ∧
      (getLibHfuzz l sys fs).2 LHFUZZ_A_PATH = some l ∧
      getLibHfuzzCalls l sys fs = ["stat", "mkostemp", "files_writeToFd", "close", "rename"]) := by
  by_cases hup : ∃ b, fs LHFUZZ_A_PATH = some b ∧ b.length = l.length
  · obtain ⟨b, hb, hlen⟩ := hup
    left
    exact ⟨b, hb, hlen, by rw [(getLibHfuzz_upToDate l sys fs b hb hlen).1]⟩
  · right
    have hne : ∀ b, fs LHFUZZ_A_PATH = some b → b.length ≠ l.length :=
      fun b hb hlen => hup ⟨b, hb, hlen⟩
    have hupb : (match fs LHFUZZ_A_PATH with
        | some st => decide (st.length = l.length)
        | none => false) = false := by
      cases hb : fs LHFUZZ_A_PATH with
      | none => rfl
      | some b => simpa using hne b hb
    refine ⟨hne, ?_⟩
    rw [getLibHfuzz_slow l sys fs hne] at h ⊢
    unfold getLibHfuzzCalls
    simp only [hupb, mkostemp, files_writeToFd]
    cases hs : sys.tmpSuffix with
    | none => rw [hs] at h; simp at h
    | some sfx =>
      rw [hs] at h
      simp only at h ⊢
      by_cases hex : (fs (tempName sfx)).isSome = true
      · simp [hex] at h
      · have hex' : (fs ("/tmp/libhfuzz.a." ++ sfx)).isSome = false := by
          simpa [tempName] using hex
        simp only [hex, hex'] at h ⊢
        cases hw : sys.writeFail with
        | some k => rw [hw] at h; simp at h
        | none =>
          rw [hw] at h
          cases hr : sys.renameOk with
          | false => rw [hr] at h; simp at h
          | true => simp [FS.rename, FS.write]

/-- C14, counterexample: a file of the embedded length with other bytes is
already at the well-known path; the call returns `true` and the bytes stored
there are not the embedded ones. -/
theorem same_length_other_bytes_accepted :
    (getLibHfuzz [127, 69, 76] { tmpSuffix := some "a1B2c3", writeFail := none, renameOk := true }
      (fun q => if q = LHFUZZ_A_PATH then some [0, 0, 0] else none)).1 = true ∧
    (getLibHfuzz [127, 69, 76] { tmpSuffix := some "a1B2c3", writeFail := none, renameOk := true }
      (fun q => if q = LHFUZZ_A_PATH then some [0, 0, 0] else none)).2 LHFUZZ_A_PATH
        = some [0, 0, 0] ∧
    some [0, 0, 0] ≠ some [127, 69, 76] := by
  decide

/-- C14, amended: for every initial state of the well-known path, whenever
`getLibHfuzz` returns `true` the file at the well-known path has exactly the
length of the embedded archive; its bytes are exactly the embedded bytes
whenever the path was absent or held a file of another length before the call;
a file of that length already there is accepted on its size alone and the
filesystem is left as it was. -/
theorem materialized_length_and_bytes (l : Bytes) (sys : Sys) (fs : FS)
    (h : (getLibHfuzz l sys fs).1 = true) :
    (∃ b, (getLibHfuzz l sys fs).2 LHFUZZ_A_PATH = some b ∧ b.length = l.length) ∧
    ((∀ b, fs LHFUZZ_A_PATH = some b → b.length ≠ l.length) →
      (getLibHfuzz l sys fs).2 LHFUZZ_A_PATH = some l) ∧
    (∀ b, fs LHFUZZ_A_PATH = some b → b.length = l.length → (getLibHfuzz l sys fs).2 = fs) := by
  rcases getLibHfuzz_success l sys fs h with ⟨b, hb, hlen, hfs⟩ | ⟨hne, hl, _⟩
  · refine ⟨⟨b, by rw [hfs]; exact hb, hlen⟩, ?_, ?_⟩
    · intro hne
      exact absurd hlen (hne b hb)
    · intro _ _ _
      exact hfs
  · refine ⟨⟨l, hl, rfl⟩, fun _ => hl, ?_⟩
    intro b hb hlen
    exact absurd hlen (hne b hb)

/-- Witness of C14 amended: from an absent target the embedded bytes end up at
the well-known path. -/
theorem materialized_length_and_bytes_witness :
    (getLibHfuzz [127, 69, 76] { tmpSuffix := some "a1B2c3", writeFail := none, renameOk := true }
      emptyFS).2 LHFUZZ_A_PATH = some [127, 69, 76] :=
  (materialized_length_and_bytes [127, 69, 76]
    { tmpSuffix := some "a1B2c3", writeFail := none, renameOk := true } emptyFS (by decide)).2.1
    (by intro b hb; cases hb)

/-- C15: if a call of `getLibHfuzz` succeeds, then on every filesystem with the
same file at the well-known path, and so on the one the first call left, a
second call returns `true`, makes the `stat` call only (no temporary file, no
write, no rename, whatever the system calls would have answered) and leaves the
filesystem as it found it; two calls in a row from an absent target write and
rename exactly once. -/
theorem second_call_fast_path (l : Bytes) (sys : Sys) (fs : FS)
    (h : (getLibHfuzz l sys fs).1 = true) (sys2 : Sys) :
    (∀ fs2 : FS, fs2 LHFUZZ_A_PATH = (getLibHfuzz l sys fs).2 LHFUZZ_A_PATH →
      getLibHfuzz l sys2 fs2 = (true, fs2) ∧ getLibHfuzzCalls l sys2 fs2 = ["stat"]) ∧
    getLibHfuzz l sys2 (getLibHfuzz l sys fs).2 = (true, (getLibHfuzz l sys fs).2) ∧
    getLibHfuzzCalls l sys2 (getLibHfuzz l sys fs).2 = ["stat"] ∧
    (fs LHFUZZ_A_PATH = none →
      (getLibHfuzzCalls l sys fs ++ getLibHfuzzCalls l sys2 (getLibHfuzz l sys fs).2)
        = ["stat", "mkostemp", "files_writeToFd", "close", "rename", "stat"]) := by
  obtain ⟨⟨b, hb, hlen⟩, _, _⟩ := materialized_length_and_bytes l sys fs h
  have key : ∀ fs2 : FS, fs2 LHFUZZ_A_PATH = (getLibHfuzz l sys fs).2 LHFUZZ_A_PATH →
      getLibHfuzz l sys2 fs2 = (true, fs2) ∧ getLibHfuzzCalls l sys2 fs2 = ["stat"] := by
    intro fs2 h2
    exact getLibHfuzz_upToDate l sys2 fs2 b (by rw [h2, hb]) hlen
  refine ⟨key, (key _ rfl).1, (key _ rfl).2, ?_⟩
  intro habs
  rw [(key _ rfl).2]
  rcases getLibHfuzz_success l sys fs h with ⟨b, hb, _, _⟩ | ⟨_, _, hc⟩
  · rw [habs] at hb
    cases hb
  · rw [hc]
    rfl

/-- Witness of C15: the first call from an absent target, then a second call
whose system calls would all fail. -/
theorem second_call_fast_path_witness :
    (getLibHfuzz [127, 69, 76] { tmpSuffix := none, writeFail := some 0, renameOk := false }
      (getLibHfuzz [127, 69, 76]
        { tmpSuffix := some "a1B2c3", writeFail := none, renameOk := true } emptyFS).2).1 = true ∧
    getLibHfuzzCalls [127, 69, 76] { tmpSuffix := none, writeFail := some 0, renameOk := false }
      (getLibHfuzz [127, 69, 76]
        { tmpSuffix := some "a1B2c3", writeFail := none, renameOk := true } emptyFS).2
      = ["stat"] := by
  have h := second_call_fast_path [127, 69, 76]
    { tmpSuffix := some "a1B2c3", writeFail := none, renameOk := true } emptyFS (by decide)
    { tmpSuffix := none, writeFail := some 0, renameOk := false }
  exact ⟨by rw [h.2.1], h.2.2.1⟩

/-- Reading the file just written. -/
theorem FS.write_same (fs : FS) (p : String) (b : Bytes) : fs.write p b p = some b := by
  simp [FS.write]

/-- Writing a file leaves the other files alone. -/
theorem FS.write_other (fs : FS) (p q : String) (b : Bytes) (h : q ≠ p) :
    fs.write p b q = fs q := by
  simp [FS.write, h]

/-- An unlinked file is gone. -/
theorem FS.unlink_same (fs : FS) (p : String) : fs.unlink p p = none := by
  simp [FS.unlink]

/-- Unlinking a file leaves the other files alone. -/
theorem FS.unlink_other (fs : FS) (p q : String) (h : q ≠ p) : fs.unlink p q = fs q := by
  simp [FS.unlink, h]

/-- After a rename the new name has the content of the old one. -/
theorem FS.rename_new (fs : FS) (old new : String) : fs.rename old new new = fs old := by
  simp [FS.rename]

/-- After a rename the old name is gone. -/
theorem FS.rename_old (fs : FS) (old new : String) (h : old ≠ new) :
    fs.rename old new old = none := by
  simp [FS.rename, h]

/-- A rename leaves the other files alone. -/
theorem FS.rename_other (fs : FS) (old new q : String) (h1 : q ≠ new) (h2 : q ≠ old) :
    fs.rename old new q = fs q := by
  simp [FS.rename, h1, h2]

/-- What a failed call leaves: the well-known path is as it was, and when the
write did not fail the temporary file the call created is gone. -/
theorem getLibHfuzz_failure (l : Bytes) (sys : Sys) (fs : FS)
    (h : (getLibHfuzz l sys fs).1 = false) :
    (getLibHfuzz l sys fs).2 LHFUZZ_A_PATH = fs LHFUZZ_A_PATH ∧
    (sys.writeFail = none → ∀ sfx, sys.tmpSuffix = some sfx → fs (tempName sfx) = none →
      (getLibHfuzz l sys fs).2 (tempName sfx) = none) := by
  have hne : ∀ b, fs LHFUZZ_A_PATH = some b → b.length ≠ l.length := by
    intro b hb hlen
    rw [(getLibHfuzz_upToDate l sys fs b hb hlen).1] at h
    cases h
  rw [getLibHfuzz_slow l sys fs hne] at h ⊢
  cases hs : sys.tmpSuffix with
  | none => simp
  | some sfx =>
    rw [hs] at h
    simp only at h ⊢
    have hp := tempName_ne_path sfx
    by_cases hex : (fs (tempName sfx)).isSome = true
    · rw [if_pos hex]
      refine ⟨rfl, ?_⟩
      intro _ sfx2 h2 hnone
      have e : sfx = sfx2 := Option.some.inj h2
      rw [← e, Option.eq_none_iff_forall_not_mem] at hnone
      obtain ⟨b, hb⟩ := Option.isSome_iff_exists.1 hex
      exact absurd hb (hnone b)
    · rw [if_neg hex] at h ⊢
      cases hw : sys.writeFail with
      | some k =>
        simp only
        refine ⟨?_, fun hh => by cases hh⟩
        show (fs.write (tempName sfx) []).write (tempName sfx) (l.take k) LHFUZZ_A_PATH
          = fs LHFUZZ_A_PATH
        rw [FS.write_other _ _ _ _ hp.symm, FS.write_other _ _ _ _ hp.symm]
      | none =>
        rw [hw] at h
        simp only at h ⊢
        cases hr : sys.renameOk with
        | true => rw [hr] at h; simp at h
        | false =>
          rw [if_neg (by simp)]
          refine ⟨?_, ?_⟩
          · show ((fs.write (tempName sfx) []).write (tempName sfx) l).unlink (tempName sfx)
              LHFUZZ_A_PATH = fs LHFUZZ_A_PATH
            rw [FS.unlink_other _ _ _ hp.symm, FS.write_other _ _ _ _ hp.symm,
              FS.write_other _ _ _ _ hp.symm]
          · intro _ sfx2 h2 _
            have e : sfx = sfx2 := Option.some.inj h2
            rw [← e]
            exact FS.unlink_same _ _

/-- C16, the code at a failing input: the target is absent, `mkostemp` creates
`/tmp/libhfuzz.a.a1B2c3` and the write fails after one byte; `getLibHfuzz`
returns `false` after `close`, without `unlink`, and the temporary file is
still there with the one byte. When it is `rename` that fails, the temporary
file is unlinked. -/
theorem failed_write_leaves_temp_file :
    emptyFS (tempName "a1B2c3") = none ∧
    (getLibHfuzz [127, 69, 76] { tmpSuffix := some "a1B2c3", writeFail := some 1, renameOk := true }
      emptyFS).1 = false ∧
    (getLibHfuzz [127, 69, 76] { tmpSuffix := some "a1B2c3", writeFail := some 1, renameOk := true }
      emptyFS).2 (tempName "a1B2c3") = some [127] ∧
    getLibHfuzzCalls [127, 69, 76]
      { tmpSuffix := some "a1B2c3", writeFail := some 1, renameOk := true } emptyFS
      = ["stat", "mkostemp", "files_writeToFd", "close"] ∧
    (getLibHfuzz [127, 69, 76] { tmpSuffix := some "a1B2c3", writeFail := none, renameOk := false }
      emptyFS).1 = false ∧
    (getLibHfuzz [127, 69, 76] { tmpSuffix := some "a1B2c3", writeFail := none, renameOk := false }
      emptyFS).2 (tempName "a1B2c3") = none := by
  decide

/-! ### Concurrent invocations -/

/-- Different characters give different temporary names. -/
theorem tempName_injective (a b : String) (h : tempName a = tempName b) : a = b := by
  unfold tempName at h
  have hd := congrArg String.data h
  rw [String.data_append, String.data_append] at hd
  exact String.ext (List.append_cancel_left hd)

/-- One system call of a process whose system calls succeed: its invariant is
kept, the well-known path is absent or holds the payload, no file other than
its own temporary file and the well-known path changes, a payload in place
stays in place, and the process has one call less ahead of it. -/
theorem stepProc_own (l : Bytes) (sfx : String) (pc : Pc) (fs : FS)
    (hpath : fs LHFUZZ_A_PATH = none ∨ fs LHFUZZ_A_PATH = some l)
    (hinv : procInv l (tempName sfx) fs pc) :
    procInv l (tempName sfx)
      (stepProc l { tmpSuffix := some sfx, writeFail := none, renameOk := true } pc fs).2
      (stepProc l { tmpSuffix := some sfx, writeFail := none, renameOk := true } pc fs).1 ∧
    ((stepProc l { tmpSuffix := some sfx, writeFail := none, renameOk := true } pc fs).2
        LHFUZZ_A_PATH = none ∨
      (stepProc l { tmpSuffix := some sfx, writeFail := none, renameOk := true } pc fs).2
        LHFUZZ_A_PATH = some l) ∧
    (∀ q, q ≠ tempName sfx → q ≠ LHFUZZ_A_PATH →
      (stepProc l { tmpSuffix := some sfx, writeFail := none, renameOk := true } pc fs).2 q
        = fs q) ∧
    (fs LHFUZZ_A_PATH = some l →
      (stepProc l { tmpSuffix := some sfx, writeFail := none, renameOk := true } pc fs).2
        LHFUZZ_A_PATH = some l) ∧
    callsLeft l (stepProc l { tmpSuffix := some sfx, writeFail := none, renameOk := true } pc fs).1
      ≤ callsLeft l pc - 1 := by
  have hp := tempName_ne_path sfx
  cases pc with
  | atStat =>
    rcases hpath with hn | hs
    · have e : stepProc l { tmpSuffix := some sfx, writeFail := none, renameOk := true }
          .atStat fs = (.atMkostemp, fs) := by
        simp [stepProc, hn]
      rw [e]
      exact ⟨hinv, Or.inl hn, fun _ _ _ => rfl, fun h => h, by simp [callsLeft]⟩
    · have e : stepProc l { tmpSuffix := some sfx, writeFail := none, renameOk := true }
          .atStat fs = (.done true, fs) := by
        simp [stepProc, hs]
      rw [e]
      exact ⟨⟨rfl, hs⟩, Or.inr hs, fun _ _ _ => rfl, fun h => h, by simp [callsLeft]⟩
  | atMkostemp =>
    have hinv' : fs (tempName sfx) = none := hinv
    have e : stepProc l { tmpSuffix := some sfx, writeFail := none, renameOk := true }
        .atMkostemp fs = (.atWrite (tempName sfx) 0, fs.write (tempName sfx) []) := by
      have h2 : fs ("/tmp/libhfuzz.a." ++ sfx) = none := hinv'
      simp [stepProc, mkostemp, h2, tempName]
    rw [e]
    refine ⟨⟨rfl, Nat.zero_le _, FS.write_same _ _ _⟩, ?_, ?_, ?_, by simp [callsLeft]⟩
    · show fs.write (tempName sfx) [] LHFUZZ_A_PATH = none ∨
        fs.write (tempName sfx) [] LHFUZZ_A_PATH = some l
      rw [FS.write_other _ _ _ _ hp.symm]
      exact hpath
    · intro q hq _
      exact FS.write_other _ _ _ _ hq
    · intro h
      show fs.write (tempName sfx) [] LHFUZZ_A_PATH = some l
      rw [FS.write_other _ _ _ _ hp.symm]
      exact h
  | atWrite template k =>
    obtain ⟨ht, hk, hfs⟩ := hinv
    subst ht
    by_cases hlt : k < l.length
    · have e : stepProc l { tmpSuffix := some sfx, writeFail := none, renameOk := true }
          (.atWrite (tempName sfx) k) fs
          = (.atWrite (tempName sfx) (k + 1), fs.write (tempName sfx) (l.take (k + 1))) := by
        simp [stepProc, hlt]
      rw [e]
      refine ⟨⟨rfl, hlt, FS.write_same _ _ _⟩, ?_, ?_, ?_, by simp [callsLeft]; omega⟩
      · show fs.write (tempName sfx) (l.take (k + 1)) LHFUZZ_A_PATH = none ∨
          fs.write (tempName sfx) (l.take (k + 1)) LHFUZZ_A_PATH = some l
        rw [FS.write_other _ _ _ _ hp.symm]
        exact hpath
      · intro q hq _
        exact FS.write_other _ _ _ _ hq
      · intro h
        show fs.write (tempName sfx) (l.take (k + 1)) LHFUZZ_A_PATH = some l
        rw [FS.write_other _ _ _ _ hp.symm]
        exact h
    · have e : stepProc l { tmpSuffix := some sfx, writeFail := none, renameOk := true }
          (.atWrite (tempName sfx) k) fs = (.atRename (tempName sfx), fs) := by
        simp [stepProc, hlt]
      rw [e]
      have hkl : k = l.length := by omega
      refine ⟨⟨rfl, ?_⟩, hpath, fun _ _ _ => rfl, fun h => h, by simp [callsLeft]⟩
      show fs (tempName sfx) = some l
      rw [hfs, hkl, List.take_length]
  | atRename template =>
    obtain ⟨ht, hfs⟩ := hinv
    subst ht
    have e : stepProc l { tmpSuffix := some sfx, writeFail := none, renameOk := true }
        (.atRename (tempName sfx)) fs
        = (.done true, fs.rename (tempName sfx) LHFUZZ_A_PATH) := by
      simp [stepProc]
    rw [e]
    have hnew : fs.rename (tempName sfx) LHFUZZ_A_PATH LHFUZZ_A_PATH = some l := by
      rw [FS.rename_new, hfs]
    refine ⟨⟨rfl, hnew⟩, Or.inr hnew, ?_, fun _ => hnew, by simp [callsLeft]⟩
    intro q hq hq2
    exact FS.rename_other _ _ _ _ hq2 hq
  | done ret =>
    have e : stepProc l { tmpSuffix := some sfx, writeFail := none, renameOk := true }
        (.done ret) fs = (.done ret, fs) := rfl
    rw [e]
    exact ⟨hinv, hpath, fun _ _ _ => rfl, fun h => h, by simp [callsLeft]⟩

/-- The invariant of a process is kept by what the other processes do: they
leave its temporary file alone and never take the payload away. -/
theorem procInv_frame (l : Bytes) (t : String) (fs fs2 : FS) (pc : Pc)
    (ht : fs2 t = fs t)
    (hpath : fs LHFUZZ_A_PATH = some l → fs2 LHFUZZ_A_PATH = some l)
    (hinv : procInv l t fs pc) : procInv l t fs2 pc := by
  cases pc with
  | atStat => exact ht.trans hinv
  | atMkostemp => exact ht.trans hinv
  | atWrite template k => exact ⟨hinv.1, hinv.2.1, ht.trans hinv.2.2⟩
  | atRename template => exact ⟨hinv.1, ht.trans hinv.2⟩
  | done ret => exact ⟨hinv.1, hpath hinv.2⟩

/-- One system call of process `j` keeps the invariants of all `N` processes. -/
theorem Conc.step_inv (l : Bytes) (N : Nat) (sysOf : Nat → Sys) (sfx : Nat → String)
    (hsys : ∀ i < N, sysOf i = { tmpSuffix := some (sfx i), writeFail := none, renameOk := true })
    (hinj : ∀ i < N, ∀ j < N, i ≠ j → sfx i ≠ sfx j)
    (c : Conc) (hpath : c.fs LHFUZZ_A_PATH = none ∨ c.fs LHFUZZ_A_PATH = some l)
    (hinv : ∀ i < N, procInv l (tempName (sfx i)) c.fs (c.pc i))
    (j : Nat) (hj : j < N) :
    ((Conc.step l sysOf c j).fs LHFUZZ_A_PATH = none ∨
      (Conc.step l sysOf c j).fs LHFUZZ_A_PATH = some l) ∧
    (∀ i < N, procInv l (tempName (sfx i)) (Conc.step l sysOf c j).fs
      ((Conc.step l sysOf c j).pc i)) ∧
    (∀ i < N, callsLeft l ((Conc.step l sysOf c j).pc i)
      ≤ callsLeft l (c.pc i) - (if i = j then 1 else 0)) := by
  obtain ⟨hown, hp2, hframe, hkeep, hleft⟩ :=
    stepProc_own l (sfx j) (c.pc j) c.fs hpath (hinv j hj)
  unfold Conc.step
  rw [hsys j hj]
  refine ⟨hp2, ?_, ?_⟩
  · intro i hi
    by_cases hij : i = j
    · subst hij
      simpa using hown
    · simp only [hij, if_false]
      refine procInv_frame l _ c.fs _ _ ?_ hkeep (hinv i hi)
      refine hframe _ ?_ (tempName_ne_path _)
      intro h
      exact hinj i hi j hj hij (tempName_injective _ _ h)
  · intro i _
    by_cases hij : i = j
    · subst hij
      simpa using hleft
    · simp [hij]

/-- Along every interleaving the invariants hold, and a process scheduled
`n` times has `n` calls less ahead of it. -/
theorem Conc.run_inv (l : Bytes) (N : Nat) (sysOf : Nat → Sys) (sfx : Nat → String)
    (hsys : ∀ i < N, sysOf i = { tmpSuffix := some (sfx i), writeFail := none, renameOk := true })
    (hinj : ∀ i < N, ∀ j < N, i ≠ j → sfx i ≠ sfx j)
    (sched : List Nat) :
    ∀ c : Conc, (c.fs LHFUZZ_A_PATH = none ∨ c.fs LHFUZZ_A_PATH = some l) →
      (∀ i < N, procInv l (tempName (sfx i)) c.fs (c.pc i)) →
      (∀ j ∈ sched, j < N) →
      ((Conc.run l sysOf c sched).fs LHFUZZ_A_PATH = none ∨
        (Conc.run l sysOf c sched).fs LHFUZZ_A_PATH = some l) ∧
      (∀ i < N, procInv l (tempName (sfx i)) (Conc.run l sysOf c sched).fs
        ((Conc.run l sysOf c sched).pc i)) ∧
      (∀ i < N, callsLeft l ((Conc.run l sysOf c sched).pc i)
        ≤ callsLeft l (c.pc i) - sched.count i) := by
  induction sched with
  | nil =>
    intro c hpath hinv _
    exact ⟨hpath, hinv, fun i _ => by simp [Conc.run]⟩
  | cons j rest ih =>
    intro c hpath hinv hs
    obtain ⟨hp1, hi1, hl1⟩ :=
      Conc.step_inv l N sysOf sfx hsys hinj c hpath hinv j (hs j (List.mem_cons_self _ _))
    obtain ⟨hp2, hi2, hl2⟩ :=
      ih (Conc.step l sysOf c j) hp1 hi1 (fun k hk => hs k (List.mem_cons_of_mem _ hk))
    have e : Conc.run l sysOf c (j :: rest) = Conc.run l sysOf (Conc.step l sysOf c j) rest := rfl
    rw [e]
    refine ⟨hp2, hi2, ?_⟩
    intro i hi
    have h1 := hl1 i hi
    have h2 := hl2 i hi
    rw [List.count_cons]
    by_cases hij : i = j
    · subst hij
      simp only [if_true, beq_self_eq_true] at h1 ⊢
      omega
    · have hji : (j == i) = false := by
        simpa using fun h => hij h.symm
      simp only [hij, if_false, hji] at h1 ⊢
      simp only [Bool.false_eq_true, if_false]
      omega

/-- C18: for every `N ≥ 1` and every interleaving of the system calls of `N`
invocations of `getLibHfuzz` (each call atomic and successful, each invocation
with its own temporary name) on a filesystem where the target is absent: at
every point the well-known path is absent or holds exactly the embedded bytes,
so no reader sees a partial or mixed file; no invocation returns failure; and
once every invocation has made its `lhfuzz.length + 4` calls, all `N` have
returned `true` and the file at the well-known path is the embedded payload. -/
theorem concurrent_materialization (l : Bytes) (N : Nat) (hN : 1 ≤ N)
    (sysOf : Nat → Sys) (sfx : Nat → String) (fs0 : FS)
    (hsys : ∀ i < N, sysOf i = { tmpSuffix := some (sfx i), writeFail := none, renameOk := true })
    (hinj : ∀ i < N, ∀ j < N, i ≠ j → sfx i ≠ sfx j)
    (habs : fs0 LHFUZZ_A_PATH = none) (hfresh : ∀ i < N, fs0 (tempName (sfx i)) = none)
    (sched : List Nat) (hsched : ∀ j ∈ sched, j < N) :
    ((Conc.run l sysOf (Conc.init fs0) sched).fs LHFUZZ_A_PATH = none ∨
      (Conc.run l sysOf (Conc.init fs0) sched).fs LHFUZZ_A_PATH = some l) ∧
    (∀ i < N, ∀ ret, (Conc.run l sysOf (Conc.init fs0) sched).pc i = .done ret →
      ret = true ∧ (Conc.run l sysOf (Conc.init fs0) sched).fs LHFUZZ_A_PATH = some l) ∧
    ((∀ i < N, l.length + 4 ≤ sched.count i) →
      (∀ i < N, (Conc.run l sysOf (Conc.init fs0) sched).pc i = .done true) ∧
      (Conc.run l sysOf (Conc.init fs0) sched).fs LHFUZZ_A_PATH = some l) := by
  obtain ⟨hp, hi, hl⟩ := Conc.run_inv l N sysOf sfx hsys hinj sched (Conc.init fs0)
    (Or.inl habs) (fun i hi => hfresh i hi) hsched
  have hdone : ∀ i < N, ∀ ret, (Conc.run l sysOf (Conc.init fs0) sched).pc i = .done ret →
      ret = true ∧ (Conc.run l sysOf (Conc.init fs0) sched).fs LHFUZZ_A_PATH = some l := by
    intro i hi' ret hret
    have := hi i hi'
    rw [hret] at this
    exact this
  refine ⟨hp, hdone, ?_⟩
  intro hcount
  have hall : ∀ i < N, (Conc.run l sysOf (Conc.init fs0) sched).pc i = .done true := by
    intro i hi'
    have h1 := hl i hi'
    have h2 := hcount i hi'
    have h0 : callsLeft l ((Conc.init fs0).pc i) = l.length + 4 := rfl
    rw [h0] at h1
    have hz : callsLeft l ((Conc.run l sysOf (Conc.init fs0) sched).pc i) = 0 := by omega
    cases hpc : (Conc.run l sysOf (Conc.init fs0) sched).pc i with
    | atStat => rw [hpc] at hz; simp [callsLeft] at hz
    | atMkostemp => rw [hpc] at hz; simp [callsLeft] at hz
    | atWrite t k => rw [hpc] at hz; simp [callsLeft] at hz
    | atRename t => rw [hpc] at hz; simp [callsLeft] at hz
    | done ret => rw [(hdone i hi' ret hpc).1]
  exact ⟨hall, (hdone 0 hN true (hall 0 hN)).2⟩

/-- Witness of C18: two invocations whose calls alternate; both see the target
absent, both write their own temporary file, both rename it into place. -/
theorem concurrent_materialization_witness :
    (∀ i < 2, (Conc.run [127, 69, 76] twoSys (Conc.init emptyFS)
      [0, 1, 0, 1, 0, 1, 0, 1, 0, 1, 0, 1, 0, 1]).pc i = .done true) ∧
    (Conc.run [127, 69, 76] twoSys (Conc.init emptyFS)
      [0, 1, 0, 1, 0, 1, 0, 1, 0, 1, 0, 1, 0, 1]).fs LHFUZZ_A_PATH = some [127, 69, 76] :=
  (concurrent_materialization [127, 69, 76] 2 (by decide) twoSys twoSuffixes emptyFS
    (fun _ _ => rfl) (by decide) rfl (by decide)
    [0, 1, 0, 1, 0, 1, 0, 1, 0, 1, 0, 1, 0, 1] (by decide)).2.2 (by decide)

/-- Writing a file twice leaves what was written last. -/
theorem FS.write_write (fs : FS) (p : String) (a b : Bytes) :
    (fs.write p a).write p b = fs.write p b := by
  funext q
  by_cases h : q = p <;> simp [FS.write, h]

/-- A process that has returned makes no further call. -/
theorem runProc_done (l : Bytes) (sys : Sys) (n : Nat) (ret : Bool) (fs : FS) :
    runProc l sys n (.done ret, fs) = (.done ret, fs) := by
  induction n with
  | zero => rfl
  | succ n ih =>
    rw [runProc]
    exact ih

/-- The write loop and `close`: from `k` bytes written to the whole payload. -/
theorem runProc_write (l : Bytes) (sys : Sys) (hw : sys.writeFail = none) (t : String)
    (g : FS) (e : Nat) :
    ∀ (m k : Nat), k + m = l.length →
      runProc l sys (m + 1 + e) (.atWrite t k, g.write t (l.take k))
        = runProc l sys e (.atRename t, g.write t l) := by
  intro m
  induction m with
  | zero =>
    intro k hk
    have hk' : k = l.length := by omega
    subst hk'
    rw [List.take_length]
    have e1 : 0 + 1 + e = e + 1 := by omega
    rw [e1, runProc]
    simp [stepProc]
  | succ m ih =>
    intro k hk
    have hlt : k < l.length := by omega
    have e1 : m + 1 + 1 + e = (m + 1 + e) + 1 := by omega
    rw [e1, runProc]
    have hs : stepProc l sys (Pc.atWrite t k, g.write t (l.take k)).1
        (Pc.atWrite t k, g.write t (l.take k)).2
        = (.atWrite t (k + 1), g.write t (l.take (k + 1))) := by
      simp [stepProc, hlt, hw, FS.write_write]
    rw [hs]
    exact ih (k + 1) (by omega)

/-- The system calls of one process alone, taken one at a time, add up to
`getLibHfuzz` (when the write does not fail): after `stat`, `mkostemp`, one
write per byte, `close` and `rename` the process has returned what
`getLibHfuzz` returns and left the filesystem `getLibHfuzz` leaves. -/
theorem runProc_eq_getLibHfuzz (l : Bytes) (sys : Sys) (fs : FS) (hw : sys.writeFail = none) :
    runProc l sys (l.length + 4) (.atStat, fs)
      = (.done (getLibHfuzz l sys fs).1, (getLibHfuzz l sys fs).2) := by
  by_cases hup : ∃ b, fs LHFUZZ_A_PATH = some b ∧ b.length = l.length
  · obtain ⟨b, hb, hlen⟩ := hup
    rw [(getLibHfuzz_upToDate l sys fs b hb hlen).1, runProc]
    have hs : stepProc l sys (Pc.atStat, fs).1 (Pc.atStat, fs).2 = (.done true, fs) := by
      simp [stepProc, hb, hlen]
    rw [hs]
    exact runProc_done _ _ _ _ _
  · have hne : ∀ b, fs LHFUZZ_A_PATH = some b → b.length ≠ l.length :=
      fun b hb hlen => hup ⟨b, hb, hlen⟩
    have hupb : (match fs LHFUZZ_A_PATH with
        | some st => decide (st.length = l.length)
        | none => false) = false := by
      cases hb : fs LHFUZZ_A_PATH with
      | none => rfl
      | some b => simpa using hne b hb
    rw [getLibHfuzz_slow l sys fs hne, runProc]
    have hs : stepProc l sys (Pc.atStat, fs).1 (Pc.atStat, fs).2 = (.atMkostemp, fs) := by
      simp [stepProc, hupb]
    rw [hs, runProc]
    cases hsfx : sys.tmpSuffix with
    | none =>
      have hm : stepProc l sys (Pc.atMkostemp, fs).1 (Pc.atMkostemp, fs).2 = (.done false, fs) := by
        simp [stepProc, mkostemp, hsfx]
      rw [hm]
      exact runProc_done _ _ _ _ _
    | some sfx =>
      simp only
      by_cases hex : (fs (tempName sfx)).isSome = true
      · have hm : stepProc l sys (Pc.atMkostemp, fs).1 (Pc.atMkostemp, fs).2
            = (.done false, fs) := by
          have hex' : (fs ("/tmp/libhfuzz.a." ++ sfx)).isSome = true := hex
          simp [stepProc, mkostemp, hsfx, hex']
        rw [hm, if_pos hex]
        exact runProc_done _ _ _ _ _
      · have hm : stepProc l sys (Pc.atMkostemp, fs).1 (Pc.atMkostemp, fs).2
            = (.atWrite (tempName sfx) 0, fs.write (tempName sfx) (l.take 0)) := by
          have hex' : ¬ (fs ("/tmp/libhfuzz.a." ++ sfx)).isSome = true := hex
          simp [stepProc, mkostemp, hsfx, hex', tempName]
        have e2 : l.length + 2 = l.length + 1 + 1 := by omega
        rw [hm, if_neg hex, hw, e2, runProc_write l sys hw (tempName sfx) fs 1 l.length 0
          (by omega), runProc, runProc, FS.write_write]
        cases hr : sys.renameOk <;> simp [stepProc, hr]

end HfuzzCC

